import Mathlib

/-!
Verification development for the `dbtest` package (a3-tests): a shallow
embedding of its Typed Value Construction Engine (`BuildObject`,
`buildObjectFromMap`, `buildObjectFromJSON`, `buildValueFromJSON`) and of its
Scenario Execution & Assertion Engine (`DBTest.Run`), together with theorems
settling the specification's claims about them.

Modelling conventions:
- Go `interface{}` values decoded from the scenario document are the `Value`
  inductive (string, int, nested map, list, bool, nil); maps are association
  lists in a fixed iteration order (Go map iteration order is unspecified;
  only the selection among several possible errors depends on it).
- Concrete runtime values produced by the engine are `GoVal`, their reflect
  types `GoType`.  The universe covers what the engine can construct: strings,
  ints, contexts, slices, pointers and registered named struct types.  Width
  distinctions (`int` vs `int64`), bools, floats and channels never arise
  from the engine and are outside the universe.
- The process-wide `customTypes` registry is an explicit `Registry` parameter.
- `json.Unmarshal` of the encoded-document form is an external decoder
  parameter `um : String → Except String Json` (the spec places document
  decoding outside the core); the decoded shape `Json` is modelled, and
  JSON numbers are modelled at integer values (the claims involve none
  other; Go decodes them as float64, converted to the field type).
- Go panics (out-of-range string slicing, reflect `Set`/`Elem` kind errors,
  nil dereference) are the explicit result `panic` of `BuildResult`; Go
  `error` returns are `err msg`.
- `defer rows.Close()` semantics: deferred closes run at function exit, so
  the run function records, for each query assertion, how many result
  cursors were already open when its cursor was acquired (`cursorLog`).
-/

set_option maxHeartbeats 1000000

namespace A3

/-- Go reflect types inhabited by values the construction engine of
`dbtest.go` can produce: strings, ints, `context.Context`, slices, pointers
and named struct types, the latter keyed by their qualified `pkg.Name`. -/
inductive GoType where
  | string
  | int
  | ctx
  | slice (elem : GoType)
  | ptr (elem : GoType)
  | named (name : String)
deriving DecidableEq, Repr

/-- Go runtime values as produced by the engine.  `structV` carries the
struct's qualified type name and its fields in declaration order; `ptr` is a
non-nil pointer to its pointee; `nilV t` is the zero value of the pointer,
slice or interface type `t` (distinct from an empty slice, matching
`reflect.DeepEqual`).  Equality of `GoVal` models `reflect.DeepEqual`,
which compares pointees of pointers. -/
inductive GoVal where
  | str (s : String)
  | int (n : Int)
  | ctxBackground
  | slice (elem : GoType) (elems : List GoVal)
  | structV (tyName : String) (fields : List (String × GoVal))
  | ptr (v : GoVal)
  | nilV (ty : GoType)

/-- The reflect type of a value (`reflect.TypeOf`). -/
def typeOf : GoVal → GoType
  | .str _ => .string
  | .int _ => .int
  | .ctxBackground => .ctx
  | .slice t _ => .slice t
  | .structV n _ => .named n
  | .ptr v => .ptr (typeOf v)
  | .nilV t => t

/-- Field layout of a registered struct type: field names (exported, in
declaration order) with their declared types. -/
abbrev StructDesc := List (String × GoType)

/-- The `customTypes` registry: qualified type name to struct layout. -/
abbrev Registry := List (String × StructDesc)

/-- Lookup in the registry (`customTypes[obj.Type]`). -/
def lookupReg : Registry → String → Option StructDesc
  | [], _ => none
  | (n, d) :: rest, key => if n = key then some d else lookupReg rest key

mutual
/-- Zero value of a Go type (`reflect.New(t).Elem()`), fuelled: Go's type
system guarantees by-value struct nesting is well-founded, which the
`Registry` datatype alone does not; chains of registered names are no longer
than the registry, so the wrapper `zeroVal` always passes enough fuel.  The
out-of-fuel and unregistered-name fallbacks are unreachable from the
engine's entry points. -/
def zeroValF (reg : Registry) (fuel : Nat) (t : GoType) : GoVal :=
  match fuel, t with
  | _, .string => .str ""
  | _, .int => .int 0
  | _, .ctx => .nilV .ctx
  | _, .ptr e => .nilV (.ptr e)
  | _, .slice e => .nilV (.slice e)
  | 0, .named n => .structV n []
  | f + 1, .named n =>
    match lookupReg reg n with
    | none => .structV n []
    | some desc => .structV n (zeroFieldsF reg f desc)
termination_by (fuel, 0)

/-- Zero values of a field list, fuelled alongside `zeroValF`. -/
def zeroFieldsF (reg : Registry) (fuel : Nat) (es : List (String × GoType)) :
    List (String × GoVal) :=
  match es with
  | [] => []
  | (f, t) :: rest => (f, zeroValF reg fuel t) :: zeroFieldsF reg fuel rest
termination_by (fuel, es.length + 1)
end

/-- Zero value of a Go type, with fuel sufficient for any registry whose
by-name chains are acyclic (as Go guarantees). -/
def zeroVal (reg : Registry) (t : GoType) : GoVal :=
  zeroValF reg (reg.length + 1) t

/-- Freshly allocated zero struct instance for a layout
(`reflect.New(t).Elem()`). -/
def zeroStruct (reg : Registry) (desc : StructDesc) : List (String × GoVal) :=
  zeroFieldsF reg (reg.length + 1) desc

/-- Go `AssignableTo` restricted to the engine's type universe: with no
interface-typed or aliased named types in play, assignability is type
identity. -/
def assignableTo (t1 t2 : GoType) : Bool := t1 = t2

/-- Go `ConvertibleTo` restricted to the engine's type universe: identical
types, and the integer-to-string conversion (which Go reads as a code-point
conversion). -/
def convertibleTo (t1 t2 : GoType) : Bool :=
  t1 = t2 || (t1 = .int && t2 = .string)

/-- Go `reflect.Value.Convert` on the conversions of `convertibleTo`:
identity, except integer to string which yields the one-rune string of the
code point (the replacement character for an invalid one, as in Go). -/
def goConvert (v : GoVal) (t : GoType) : GoVal :=
  match v, t with
  | .int n, .string =>
    if 0 ≤ n ∧ n.toNat.isValidChar then .str (String.mk [Char.ofNat n.toNat])
    else .str (String.mk [Char.ofNat 0xFFFD])
  | v, _ => v

/-- Decoded scenario-document values (`interface{}` after the YAML decode):
strings, ints, nested maps as association lists, lists, booleans and nil. -/
inductive Value where
  | null
  | str (s : String)
  | int (n : Int)
  | bool (b : Bool)
  | map (entries : List (String × Value))
  | list (xs : List Value)

/-- A tagged value description (`dbtest.Object`): `{type, value}`. -/
structure Object where
  type : String
  value : Value

/-- Decoded JSON documents (`interface{}` after `json.Unmarshal`): objects
as association lists, arrays, strings, numbers (modelled at their integer
values; Go decodes them as float64), booleans and null. -/
inductive Json where
  | null
  | str (s : String)
  | num (n : Int)
  | bool (b : Bool)
  | obj (entries : List (String × Json))
  | arr (xs : List Json)

/-- Outcome of building one value: a constructed value, a Go error with its
message, or a Go panic (runtime fault). -/
inductive BuildResult where
  | ok (v : GoVal)
  | err (msg : String)
  | panic

/-- Outcome of building a list of values (array elements, argument lists,
expected columns). -/
inductive ValsResult where
  | ok (vs : List GoVal)
  | err (msg : String)
  | panic

/-- Outcome of populating a struct's fields. -/
inductive FieldsResult where
  | ok (fields : List (String × GoVal))
  | err (msg : String)
  | panic

/-- Association-list lookup over decoded map entries (Go map indexing),
returning the value with a size bound for termination of the construction
recursion. -/
def lookupSized : (es : List (String × Value)) → String →
    Option { v : Value // sizeOf v < sizeOf es }
  | [], _ => none
  | (k, v) :: rest, key =>
    if k = key then some ⟨v, by simp; omega⟩
    else
      match lookupSized rest key with
      | some ⟨w, hw⟩ => some ⟨w, by simp; omega⟩
      | none => none

/-- Map lookup as the engine's callers see it. -/
def lookupEntry (es : List (String × Value)) (key : String) : Option Value :=
  (lookupSized es key).map (·.1)

/-- First character of a nonempty string, as Go's one-byte slice `s[:1]`
reads it for ASCII text. -/
def firstChar (s : String) : Char := s.data.headD (Char.ofNat 0)

/-- The text after the last '.', over the character list: the last element
of Go's `strings.Split(s, ".")`. -/
def lastCompAux : List Char → List Char → List Char
  | [], acc => acc.reverse
  | c :: rest, acc => if c = '.' then lastCompAux rest [] else lastCompAux rest (c :: acc)

/-- The last component of a qualified type name
(`comps := strings.Split(s, "."); comps[len(comps)-1]`). -/
def lastComp (s : String) : String := ⟨lastCompAux s.data []⟩

/-- Go `strings.ToUpper(k[:1]) + k[1:]` on a nonempty key (ASCII model). -/
def goTitle (k : String) : String :=
  match k.data with
  | [] => ""
  | c :: rest => ⟨c.toUpper :: rest⟩

/-- Field lookup in a struct instance (`FieldByName`). -/
def findField : List (String × GoVal) → String → Option GoVal
  | [], _ => none
  | (n, v) :: rest, key => if n = key then some v else findField rest key

/-- Field update in a struct instance (`f.Set`), first match. -/
def setField : List (String × GoVal) → String → GoVal → List (String × GoVal)
  | [], _, _ => []
  | (n, v) :: rest, key, w =>
    if n = key then (n, w) :: rest else (n, v) :: setField rest key w

/-- Go `%T` rendering of a decoded document value, used in the
invalid-field-value error message. -/
def valueTypeName : Value → String
  | .null => "<nil>"
  | .str _ => "string"
  | .int _ => "int"
  | .bool _ => "bool"
  | .map _ => "map[string]interface \x7b\x7d"
  | .list _ => "[]interface \x7b\x7d"

/-- Go rendering of a reflect type (`%s` of a `reflect.Type`). -/
def goTypeFmt : GoType → String
  | .string => "string"
  | .int => "int"
  | .ctx => "context.Context"
  | .slice e => "[]" ++ goTypeFmt e
  | .ptr e => "*" ++ goTypeFmt e
  | .named n => n

mutual
/-- `reflect.DeepEqual` on the engine's value universe: structural equality,
with pointers compared by pointee and a nil slice distinct from an empty
one. -/
def deepEqual (a b : GoVal) : Bool :=
  match a, b with
  | .str x, .str y => x == y
  | .int x, .int y => x == y
  | .ctxBackground, .ctxBackground => true
  | .slice t1 xs, .slice t2 ys => t1 == t2 && deepEqualList xs ys
  | .structV n1 fs1, .structV n2 fs2 => n1 == n2 && deepEqualFields fs1 fs2
  | .ptr x, .ptr y => deepEqual x y
  | .nilV t1, .nilV t2 => t1 == t2
  | _, _ => false
termination_by (sizeOf a, 0)

/-- Elementwise `deepEqual` on slices. -/
def deepEqualList (xs ys : List GoVal) : Bool :=
  match xs, ys with
  | [], [] => true
  | x :: xr, y :: yr => deepEqual x y && deepEqualList xr yr
  | _, _ => false
termination_by (sizeOf xs, 1)

/-- Fieldwise `deepEqual` on struct instances. -/
def deepEqualFields (xs ys : List (String × GoVal)) : Bool :=
  match xs, ys with
  | [], [] => true
  | (n1, x) :: xr, (n2, y) :: yr => n1 == n2 && deepEqual x y && deepEqualFields xr yr
  | _, _ => false
termination_by (sizeOf xs, 1)
end

mutual
/-- The recursion of `buildObjectFromJSON` (dbtest.go) on the type it is
to fill: allocates the zero instance and populates the decoded keys.  Its
argument in the source is a `reflect.Type`; a non-struct type makes the
source's `FieldByName` panic unless the document is empty, and a named type
missing from the registry (impossible when called from `BuildObject`, whose
types come from the registry) is modelled as stuck, hence `panic`. -/
def buildObjectFromJSONT (reg : Registry) (typ : GoType)
    (m : List (String × Json)) : BuildResult :=
  match typ with
  | .named n =>
    match lookupReg reg n with
    | some desc =>
      match buildJsonFields reg n (zeroStruct reg desc) m with
      | .ok flds => .ok (.ptr (.structV n flds))
      | .err e => .err e
      | .panic => .panic
    | none => .panic
  | _ =>
    match m with
    | [] => .ok (.ptr (zeroVal reg typ))
    | _ :: _ => .panic
termination_by (sizeOf m, 1)

/-- The field loop of `buildObjectFromJSON`: for each decoded key, title-case
it (panicking on an empty key, as `k[:1]` does), find the field, build its
value against the field's declared type and `Set` it (a `Set` with a
mismatched type panics). -/
def buildJsonFields (reg : Registry) (tyName : String)
    (inst : List (String × GoVal)) (m : List (String × Json)) : FieldsResult :=
  match m with
  | [] => .ok inst
  | (k, v) :: rest =>
    if k = "" then .panic
    else
      match findField inst (goTitle k) with
      | none => .err ("field '" ++ k ++ "' not found in type '" ++ tyName ++ "'")
      | some cur =>
        match buildValueFromJSON reg (typeOf cur) v with
        | .ok bv =>
          if typeOf bv = typeOf cur then
            buildJsonFields reg tyName (setField inst (goTitle k) bv) rest
          else .panic
        | .err e => .err e
        | .panic => .panic
termination_by (sizeOf m, 0)

/-- `buildValueFromJSON` (dbtest.go): a decoded object recurses into
`typ.Elem()` (panicking unless `typ` is a pointer or slice, as `Elem` does);
a decoded array fills a fresh slice (panicking unless `typ` is a slice, as
`MakeSlice` does); a scalar must be convertible to `typ` (JSON null makes
`reflect.TypeOf` return nil and the source fault on it). -/
def buildValueFromJSON (reg : Registry) (typ : GoType) (v : Json) : BuildResult :=
  match v with
  | .obj m =>
    match typ with
    | .ptr e => buildObjectFromJSONT reg e m
    | .slice e => buildObjectFromJSONT reg e m
    | _ => .panic
  | .arr xs =>
    match typ with
    | .slice e =>
      match buildJsonSlice reg e xs with
      | .ok vs => .ok (.slice e vs)
      | .err msg => .err msg
      | .panic => .panic
    | _ => .panic
  | .str s =>
    if typ = .string then .ok (.str s)
    else .err ("expected value of/convertible to type '" ++ goTypeFmt typ ++ "'")
  | .num n =>
    if typ = .int then .ok (.int n)
    else .err ("expected value of/convertible to type '" ++ goTypeFmt typ ++ "'")
  | .bool _ => .err ("expected value of/convertible to type '" ++ goTypeFmt typ ++ "'")
  | .null => .panic
termination_by (sizeOf v, 0)

/-- The element loop of `buildValueFromJSON`'s array case: each element is
built against the slice's element type and `Set` into the fresh slice (a
mismatched element type makes `Set` panic). -/
def buildJsonSlice (reg : Registry) (elemTy : GoType) (xs : List Json) : ValsResult :=
  match xs with
  | [] => .ok []
  | x :: rest =>
    match buildValueFromJSON reg elemTy x with
    | .ok v =>
      if typeOf v = elemTy then
        match buildJsonSlice reg elemTy rest with
        | .ok vs => .ok (v :: vs)
        | .err e => .err e
        | .panic => .panic
      else .panic
    | .err e => .err e
    | .panic => .panic
termination_by (sizeOf xs, 0)
end

/-- The external JSON decoder: `json.Unmarshal(data, &m)` with
`m : map[string]interface\x7b\x7d`, abstracted as a parameter (the spec places
document decoding outside the core).  It yields the decoded key/value list
or the decode error's message. -/
abbrev Unmarshal := String → Except String (List (String × Json))

/-- The `context` case of `BuildObject`: the value must be the string
"background", producing the root context. -/
def buildContextCase (ty : String) (val : Value) : BuildResult :=
  match val with
  | .str s =>
    if s = "background" then .ok .ctxBackground
    else .err ("type '" ++ ty ++ "' expects value 'background'")
  | _ => .err ("type '" ++ ty ++ "' expects value of type 'string'")

/-- The `string` case of `BuildObject`: the value must already be a string,
returned as is. -/
def buildStringCase (ty : String) (val : Value) : BuildResult :=
  match val with
  | .str s => .ok (.str s)
  | _ => .err ("type '" ++ ty ++ "' expects value of type 'string'")

/-- The `int` case of `BuildObject`: the value must already be an integer,
returned as is. -/
def buildIntCase (ty : String) (val : Value) : BuildResult :=
  match val with
  | .int n => .ok (.int n)
  | _ => .err ("type '" ++ ty ++ "' expects value of type 'int'")

/-- The tag checks opening `BuildObject`'s default (custom type) case: an
empty tag errors; `tname[:1]` on an empty name after the last dot panics;
a first character changed by `ToUpper` errors.  `none` means the checks
passed. -/
def customTagCheck (ty : String) : Option BuildResult :=
  if ty = "" then some (.err "object type mustn't be empty")
  else if lastComp ty = "" then some .panic
  else if firstChar (lastComp ty) ≠ (firstChar (lastComp ty)).toUpper then
    some (.err ("custom type '" ++ ty ++ "' doesn't begin with an uppercase letter"))
  else none

mutual
/-- `BuildObject` (dbtest.go): dispatch on the type tag; primitives check
the native representation, `array` builds a homogeneous non-empty slice, and
any other tag is a custom type resolved in the registry, constructed either
from a structured map or from an encoded JSON document. -/
def buildObject (reg : Registry) (um : Unmarshal) : Object → BuildResult
  | ⟨ty, val⟩ =>
    if ty = "context" then buildContextCase ty val
    else if ty = "string" then buildStringCase ty val
    else if ty = "int" then buildIntCase ty val
    else if ty = "array" then buildArrayCase reg um ty val
    else
      match customTagCheck ty with
      | some r => r
      | none =>
        match lookupReg reg ty with
        | none => .err ("unknown custom type '" ++ ty ++ "'")
        | some desc => buildCustomValue reg um ty desc val
termination_by o => (sizeOf o.value, 3)

/-- The `array` case of `BuildObject`: the value must be a non-empty list of
maps; the first element fixes the slice's element type. -/
def buildArrayCase (reg : Registry) (um : Unmarshal) (ty : String) (val : Value) :
    BuildResult :=
  match val with
  | .list (el0 :: rest) =>
    match el0 with
    | .map m0 =>
      match buildObjectFromMap reg um m0 with
      | .ok v0 =>
        match buildArrayLoop reg um (typeOf v0) rest with
        | .ok vs => .ok (.slice (typeOf v0) (v0 :: vs))
        | .err e => .err e
        | .panic => .panic
      | .err e => .err e
      | .panic => .panic
    | _ =>
      .err ("type '" ++ ty ++
        "' expects value of type 'array of maps' which mustn't be empty")
  | _ =>
    .err ("type '" ++ ty ++
      "' expects value of type 'array of maps' which mustn't be empty")
termination_by (sizeOf val, 2)

/-- The custom-type value dispatch of `BuildObject`: a structured map
populates a fresh zero instance field by field; a string is an encoded JSON
document decoded and built against the registered layout; anything else
errors. -/
def buildCustomValue (reg : Registry) (um : Unmarshal) (ty : String)
    (desc : StructDesc) (val : Value) : BuildResult :=
  match val with
  | .map entries =>
    match buildFields reg um ty (zeroStruct reg desc) entries with
    | .ok flds => .ok (.ptr (.structV ty flds))
    | .err e => .err e
    | .panic => .panic
  | .str s =>
    match um s with
    | .error e => .err ("type '" ++ ty ++ "', failed to unmarshal JSON (" ++ e ++ ")")
    | .ok jm => buildObjectFromJSONT reg (.named ty) jm
  | _ => .err ("type '" ++ ty ++ "' expects value of type 'map' or 'JSON string'")
termination_by (sizeOf val, 2)

/-- `buildObjectFromMap` (dbtest.go): read the `type` and `value` keys of a
decoded map and build the tagged value they describe. -/
def buildObjectFromMap (reg : Registry) (um : Unmarshal)
    (es : List (String × Value)) : BuildResult :=
  match lookupSized es "type" with
  | none => .err "expected 'type' in map"
  | some ⟨t, _⟩ =>
    match t with
    | .str tn =>
      match lookupSized es "value" with
      | none => .err "expected 'value' in map"
      | some ⟨v, _⟩ => buildObject reg um ⟨tn, v⟩
    | _ => .err "'type' in map must be a string"
termination_by (sizeOf es, 0)

/-- The element loop of `BuildObject`'s `array` case from the second element
on: each element must be a map, build to the first element's concrete type,
and lands in the slice in input order. -/
def buildArrayLoop (reg : Registry) (um : Unmarshal) (eltype : GoType)
    (xs : List Value) : ValsResult :=
  match xs with
  | [] => .ok []
  | el :: rest =>
    match el with
    | .map m =>
      match buildObjectFromMap reg um m with
      | .ok v =>
        if typeOf v = eltype then
          match buildArrayLoop reg um eltype rest with
          | .ok vs => .ok (v :: vs)
          | .err e => .err e
          | .panic => .panic
        else .err "type mismatch in array"
      | .err e => .err e
      | .panic => .panic
    | _ =>
      .err "type 'array' expects value of type 'array of maps' which mustn't be empty"
termination_by (sizeOf xs, 1)

/-- The field loop of `BuildObject`'s structured custom-type form: for each
described key, title-case it (panicking on an empty key, as `k[:1]` does),
find the field, require a nested `\x7btype, value\x7d` map, build it and
assign it, converting when the built type is merely convertible to the
field's type. -/
def buildFields (reg : Registry) (um : Unmarshal) (tyName : String)
    (inst : List (String × GoVal)) (entries : List (String × Value)) : FieldsResult :=
  match entries with
  | [] => .ok inst
  | (k, v) :: rest =>
    if k = "" then .panic
    else
      match findField inst (goTitle k) with
      | none => .err ("field '" ++ k ++ "' not found in type '" ++ tyName ++ "'")
      | some cur =>
        match v with
        | .map m =>
          match buildObjectFromMap reg um m with
          | .ok bv =>
            if assignableTo (typeOf bv) (typeOf cur) then
              buildFields reg um tyName (setField inst (goTitle k) bv) rest
            else if convertibleTo (typeOf bv) (typeOf cur) then
              buildFields reg um tyName
                (setField inst (goTitle k) (goConvert bv (typeOf cur))) rest
            else
              .err ("field '" ++ k ++ "' can't be assigned the provided value, type mismatch")
          | .err e => .err e
          | .panic => .panic
        | _ =>
          .err ("invalid value of field '" ++ k ++ "', must be a map (is " ++
            valueTypeName v ++ ")")
termination_by (sizeOf entries, 1)
end

/-- An arrange step (`dbtest.Arrange`): opaque SQL text. -/
structure Arrange where
  statement : String

/-- The act step (`dbtest.Act`). -/
structure Act where
  method : String
  arguments : List Object

/-- An expected row of a query assertion (`dbtest.Row`). -/
structure Row where
  columns : List Object

/-- An assertion (`dbtest.Assert`): expected return value, query with
expected rows, or expected error message. -/
structure Assert where
  value : Object
  query : String
  rows : List Row
  error : String

/-- A scenario (`dbtest.DBTest`). -/
structure DBTest where
  name : String
  arrange : List Arrange
  act : Act
  assert : List Assert

/-- The last return value of the invoked method, read as the error slot:
nil, a non-nil `error` with its message, or a non-nil value that is not an
`error` (making the engine return a plain formatting error). -/
inductive LastRet where
  | nil
  | err (msg : String)
  | nonError
deriving DecidableEq, Repr

/-- The result of `m.Func.Call(args)`: the return values before the last
one, and the last return value read as the error slot (so the method has
`vals.length + 1` declared results). -/
structure CallResult where
  vals : List GoVal
  last : LastRet

/-- A resolvable service method: its declared `NumIn` (receiver included) and
its behaviour on the built arguments (invoked only when the arity check
passed). -/
structure Method where
  numIn : Nat
  call : List GoVal → CallResult

/-- The service under test, as the engine sees it: methods resolvable by
name (`MethodByName`). -/
abbrev Service := List (String × Method)

/-- Method resolution by name. -/
def lookupMethod : Service → String → Option Method
  | [], _ => none
  | (n, m) :: rest, key => if n = key then some m else lookupMethod rest key

/-- An actual result column: its name (`cols[i].Name()`) and the value the
driver scanned into the freshly allocated `*ScanType` destination (the
destination pointer itself is `GoVal.ptr val`). -/
structure ActualCol where
  name : String
  val : GoVal

/-- Outcome of `db.QueryContext`: an immediate query error, or a stream of
rows together with the terminal `rows.Err()` outcome. -/
inductive QueryOutcome where
  | fail (msg : String)
  | rows (arows : List (List ActualCol)) (finalErr : Option String)

/-- The open database connection: execute-for-effect (arrange) and
query-with-metadata (assertions), each either failing with an error message
or succeeding. -/
structure DB where
  exec : String → Option String
  query : String → QueryOutcome

/-- Outcome of running one scenario: success, a plain error return, a
scenario-named `*TestError` with its message (its diagnostic `data` map is
not modelled), or a propagated panic. -/
inductive RunResult where
  | ok
  | err (msg : String)
  | testErr (name message : String)
  | panic
deriving DecidableEq, Repr

mutual
/-- Approximation of `fmt`'s `%v` rendering of a runtime value, used only
inside inequality-failure messages (Stringer methods and pointer addresses
are not modelled). -/
def goFmt (v : GoVal) : String :=
  match v with
  | .str s => s
  | .int n => toString n
  | .ctxBackground => "context.Background"
  | .slice _ xs => "[" ++ goFmtList xs ++ "]"
  | .structV _ fs => "\x7b" ++ goFmtFields fs ++ "\x7d"
  | .ptr w => "&" ++ goFmt w
  | .nilV t => match t with | .slice _ => "[]" | _ => "<nil>"
termination_by (sizeOf v, 0)

/-- Space-separated `%v` of slice elements. -/
def goFmtList (xs : List GoVal) : String :=
  match xs with
  | [] => ""
  | [x] => goFmt x
  | x :: rest => goFmt x ++ " " ++ goFmtList rest
termination_by (sizeOf xs, 1)

/-- Space-separated `%v` of struct fields. -/
def goFmtFields (fs : List (String × GoVal)) : String :=
  match fs with
  | [] => ""
  | [(_, x)] => goFmt x
  | (_, x) :: rest => goFmt x ++ " " ++ goFmtFields rest
termination_by (sizeOf fs, 1)
end

/-- Whether a value's reflect kind is `Pointer`. -/
def isPtrKind : GoVal → Bool
  | .ptr _ => true
  | .nilV (.ptr _) => true
  | _ => false

/-- The per-column comparison of a query assertion (`DBTest.Run`): the
actual column is the scan destination pointer; it is dereferenced when the
expected value is not itself of pointer kind, converted to the expected
value's type when the types differ but are convertible, and compared with
`reflect.DeepEqual`. -/
def compareColumn (name : String) (expected : GoVal) (acol : ActualCol) :
    Option RunResult :=
  let a0 : GoVal := .ptr acol.val
  let a1 := if isPtrKind a0 && !(isPtrKind expected) then acol.val else a0
  if typeOf a1 = typeOf expected then
    if deepEqual expected a1 then none
    else
      some (.testErr name ("values of field '" ++ acol.name ++ "' not equal: '" ++
        goFmt expected ++ "' /= '" ++ goFmt a1 ++ "'"))
  else if convertibleTo (typeOf a1) (typeOf expected) then
    let a2 := goConvert a1 (typeOf expected)
    if deepEqual expected a2 then none
    else
      some (.testErr name ("values of field '" ++ acol.name ++ "' not equal: '" ++
        goFmt expected ++ "' /= '" ++ goFmt a2 ++ "'"))
  else some (.testErr name ("incompatible types of field '" ++ acol.name ++ "'"))

/-- Building the expected column values of one expected row, in column
order, first build failure aborting (`expected[i], err = BuildObject(...)`). -/
def buildExpectedCols (reg : Registry) (um : Unmarshal) : List Object → ValsResult
  | [] => .ok []
  | c :: rest =>
    match buildObject reg um c with
    | .ok v =>
      match buildExpectedCols reg um rest with
      | .ok vs => .ok (v :: vs)
      | .err e => .err e
      | .panic => .panic
    | .err e => .err e
    | .panic => .panic

/-- Columnwise comparison of built expected values against actual columns. -/
def compareCols (name : String) : List GoVal → List ActualCol → Option RunResult
  | [], _ => none
  | _, [] => none
  | e :: es, a :: acs =>
    match compareColumn name e a with
    | some r => some r
    | none => compareCols name es acs

/-- Comparison of one actual row against its expected row (`DBTest.Run`):
column counts must match, the expected columns are built, and each column
pair is compared. -/
def compareRow (reg : Registry) (um : Unmarshal) (name : String) (row : Row)
    (arow : List ActualCol) : Option RunResult :=
  if row.columns.length ≠ arow.length then
    some (.testErr name "invalid number of columns")
  else
    match buildExpectedCols reg um row.columns with
    | .err e => some (.err e)
    | .panic => some .panic
    | .ok evs => compareCols name evs arow

/-- The `rows.Next()` loop of a query assertion: each streamed actual row is
compared against the next expected row in order; an actual row arriving with
no expected rows left fails with "less rows expected". -/
def queryRowsLoop (reg : Registry) (um : Unmarshal) (name : String) :
    List Row → List (List ActualCol) → Option RunResult
  | _, [] => none
  | specs, arow :: arest =>
    match specs with
    | [] => some (.testErr name "less rows expected")
    | spec :: srest =>
      match compareRow reg um name spec arow with
      | some r => some r
      | none => queryRowsLoop reg um name srest arest

/-- A query assertion's row processing after `QueryContext` succeeded
(`DBTest.Run`): stream the actual rows, surface `rows.Err()`, and fail with
"more rows expected" when the stream ended before the expected rows did.
`none` means the assertion passed. -/
def runQueryRows (reg : Registry) (um : Unmarshal) (name : String)
    (specs : List Row) (arows : List (List ActualCol)) (finalErr : Option String) :
    Option RunResult :=
  match queryRowsLoop reg um name specs arows with
  | some r => some r
  | none =>
    match finalErr with
    | some e => some (.err e)
    | none =>
      if arows.length < specs.length then some (.testErr name "more rows expected")
      else none

/-- The assertion loop of `DBTest.Run` over the captured act outcome.
`openC` counts the result cursors opened so far and not yet closed: each
query assertion's `defer rows.Close()` runs only at function exit, so a
cursor stays open for the rest of the scenario; `log` records, per query
executed, how many cursors were already open at its acquisition. -/
def runAsserts (reg : Registry) (um : Unmarshal) (db : DB) (name mname : String)
    (r : CallResult) (asserts : List Assert) (openC : Nat) (log : List Nat) :
    RunResult × List Nat :=
  match asserts with
  | [] => (.ok, log)
  | ass :: rest =>
    let precheck : Option RunResult :=
      if ass.error = "" then
        match r.last with
        | .nil => none
        | .nonError => some (.err ("last return value of '" ++ mname ++ "' isn't an error"))
        | .err m => some (.testErr name ("unexpected error: " ++ m))
      else none
    match precheck with
    | some out => (out, log)
    | none =>
      if ass.error ≠ "" then
        match r.last with
        | .nil => (.testErr name "expected error", log)
        | .nonError => (.err ("last return value of '" ++ mname ++ "' isn't an error"), log)
        | .err m =>
          if m ≠ ass.error then
            (.testErr name ("different error: '" ++ ass.error ++ "' /= '" ++ m ++ "'"), log)
          else runAsserts reg um db name mname r rest openC log
      else if ass.query ≠ "" then
        match db.query ass.query with
        | .fail m => (.err m, log)
        | .rows arows finalErr =>
          match runQueryRows reg um name ass.rows arows finalErr with
          | some res => (res, log ++ [openC])
          | none => runAsserts reg um db name mname r rest (openC + 1) (log ++ [openC])
      else
        match r.vals with
        | [actual] =>
          match buildObject reg um ass.value with
          | .err e => (.err e, log)
          | .panic => (.panic, log)
          | .ok expected =>
            if deepEqual expected actual then runAsserts reg um db name mname r rest openC log
            else
              (.testErr name ("return values not equal: '" ++ goFmt expected ++ "' /= '" ++
                goFmt actual ++ "'"), log)
        | _ =>
          (.testErr name ("invalid number of return values of method '" ++ mname ++ "'"), log)

/-- The arrange phase: execute each statement in order, first failure
aborting the scenario with that error. -/
def runArrange (db : DB) : List Arrange → Option String
  | [] => none
  | a :: rest =>
    match db.exec a.statement with
    | some e => some e
    | none => runArrange db rest

/-- Building the act arguments in order, first failure aborting. -/
def buildArgs (reg : Registry) (um : Unmarshal) : List Object → ValsResult
  | [] => .ok []
  | o :: rest =>
    match buildObject reg um o with
    | .ok v =>
      match buildArgs reg um rest with
      | .ok vs => .ok (v :: vs)
      | .err e => .err e
      | .panic => .panic
    | .err e => .err e
    | .panic => .panic

/-- `DBTest.Run` (dbtest.go): arrange, resolve the act method, check its
arity against the supplied arguments (receiver included on the declared
side), build the arguments, invoke, then evaluate the assertions against
the captured outcome.  Returns the scenario result and the cursor log (how
many cursors were already open at each query assertion's acquisition; the
deferred closes all run at this function's exit). -/
def DBTest.run (reg : Registry) (um : Unmarshal) (t : DBTest) (db : DB)
    (service : Service) : RunResult × List Nat :=
  match runArrange db t.arrange with
  | some e => (.err e, [])
  | none =>
    match lookupMethod service t.act.method with
    | none => (.err ("method '" ++ t.act.method ++ "' not found in service"), [])
    | some mth =>
      if mth.numIn ≠ t.act.arguments.length + 1 then
        (.err ("invalid number of arguments to method '" ++ t.act.method ++ "'"), [])
      else
        match buildArgs reg um t.act.arguments with
        | .err e => (.err e, [])
        | .panic => (.panic, [])
        | .ok args =>
          runAsserts reg um db t.name t.act.method (mth.call args) t.assert 0 []

/-- A decoder for concrete statements: it recognises no document. -/
def umNone : Unmarshal := fun _ => .error "unexpected end of JSON input"

/-- A database for concrete statements: every statement succeeds and every
query yields the empty result set. -/
def dbEmpty : DB := ⟨fun _ => none, fun _ => .rows [] none⟩

/-- A service with one method `M` taking only the receiver and returning
only a nil error slot. -/
def svcM : Service := [("M", ⟨1, fun _ => ⟨[], .nil⟩⟩)]

/-- A query assertion on `q` expecting no rows. -/
def queryAssert (q : String) : Assert := ⟨⟨"", .null⟩, q, [], ""⟩

/-- A scenario with two query assertions, both passing. -/
def twoQueryScenario : DBTest :=
  ⟨"t", [], ⟨"M", []⟩, [queryAssert "SELECT 1", queryAssert "SELECT 2"]⟩

/-- The expected row `[\x7btype: int, value: 1\x7d]` of the row-count claim. -/
def intRowSpec : Row := ⟨[⟨"int", .int 1⟩]⟩

/-- An actual row with a single int column of value 1, matching
`intRowSpec`. -/
def intActualRow : List ActualCol := [⟨"v", .int 1⟩]

/-- Proof-side view of a struct instance: its field names with the types of
their current values (the declared field types, `f.Type()`, since the
engine only ever installs values of the field's type). -/
def fieldTypes (inst : List (String × GoVal)) : List (String × GoType) :=
  inst.map (fun p => (p.1, typeOf p.2))

/-- A registry with one type `Foo` of an int field and a string field, for
concrete statements. -/
def regFoo2 : Registry := [("Foo", [("Field1", GoType.int), ("Field2", GoType.string)])]

/-- Go-side lower-casing of a field name's first character: the canonical
consumer key of the field (`FieldByName` title-cases it back). -/
def lowerFirst (s : String) : String :=
  match s.data with
  | [] => ""
  | c :: rest => ⟨c.toLower :: rest⟩

/-- The type tag of the canonical structured description of a value. -/
def tagOf : GoVal → String
  | .str _ => "string"
  | .int _ => "int"
  | .ctxBackground => "context"
  | .slice _ _ => "array"
  | .ptr (.structV n _) => n
  | _ => ""

mutual
/-- The `value` part of the canonical structured description of a value:
the inverse image of the construction engine on its own output. -/
def descValueOf (v : GoVal) : Value :=
  match v with
  | .str s => .str s
  | .int n => .int n
  | .ctxBackground => .str "background"
  | .slice _ xs => .list (descElems xs)
  | .ptr w =>
    match w with
    | .structV _ fs => .map (descFields fs)
    | _ => .null
  | _ => .null
termination_by (sizeOf v, 0)

/-- Canonical `{type, value}` element descriptions of slice elements. -/
def descElems (xs : List GoVal) : List Value :=
  match xs with
  | [] => []
  | x :: rest =>
    .map [("type", .str (tagOf x)), ("value", descValueOf x)] :: descElems rest
termination_by (sizeOf xs, 0)

/-- Canonical structured-form entries of struct fields, keyed by the
lower-cased field names. -/
def descFields (fs : List (String × GoVal)) : List (String × Value) :=
  match fs with
  | [] => []
  | (f, x) :: rest =>
    (lowerFirst f, .map [("type", .str (tagOf x)), ("value", descValueOf x)]) ::
      descFields rest
termination_by (sizeOf fs, 0)
end

/-- The canonical structured `Object` description of a value. -/
def objOf (v : GoVal) : Object := ⟨tagOf v, descValueOf v⟩

mutual
/-- The canonical decoded JSON document describing a value (the
encoded-document form after the external decode). -/
def jsonOf (v : GoVal) : Json :=
  match v with
  | .str s => .str s
  | .int n => .num n
  | .slice _ xs => .arr (jsonElems xs)
  | .ptr w =>
    match w with
    | .structV _ fs => .obj (jsonFields fs)
    | _ => .null
  | _ => .null
termination_by (sizeOf v, 0)

/-- JSON documents of slice elements. -/
def jsonElems (xs : List GoVal) : List Json :=
  match xs with
  | [] => []
  | x :: rest => jsonOf x :: jsonElems rest
termination_by (sizeOf xs, 0)

/-- JSON entries of struct fields, keyed by the lower-cased field names. -/
def jsonFields (fs : List (String × GoVal)) : List (String × Json) :=
  match fs with
  | [] => []
  | (f, x) :: rest => (lowerFirst f, jsonOf x) :: jsonFields rest
termination_by (sizeOf fs, 0)
end

/-- The decoded JSON document of a pointer-to-struct value (what the
external decoder yields on its encoded-document form). -/
def jsonDoc : GoVal → List (String × Json)
  | .ptr (.structV _ fs) => jsonFields fs
  | _ => []

/-- Setting a sequence of fields left to right (proof-side view of the
field loops). -/
def setAll (inst : List (String × GoVal)) (todo : List (String × GoVal)) :
    List (String × GoVal) :=
  todo.foldl (fun i p => setField i p.1 p.2) inst

/-- Values representable in both description forms and well-typed against
the registry: ints, strings, non-empty homogeneous slices, and pointers to
registered structs whose qualified tag is well-formed and not a built-in
tag, whose field names are distinct, in declaration order, and round-trip
through the consumer-key convention (exported ASCII Go field names do). -/
inductive JRep (reg : Registry) : GoType → GoVal → Prop where
  | int (n : Int) : JRep reg .int (.int n)
  | str (s : String) : JRep reg .string (.str s)
  | slice (t : GoType) (xs : List GoVal) (hne : xs ≠ [])
      (helems : ∀ x ∈ xs, JRep reg t x) :
      JRep reg (.slice t) (.slice t xs)
  | ptrStruct (n : String) (desc : StructDesc) (fs : List (String × GoVal))
      (hreg : lookupReg reg n = some desc)
      (hname : lastComp n ≠ "" ∧ firstChar (lastComp n) = (firstChar (lastComp n)).toUpper)
      (hnb : n ≠ "context" ∧ n ≠ "string" ∧ n ≠ "int" ∧ n ≠ "array")
      (hnames : fs.map Prod.fst = desc.map Prod.fst)
      (hnodup : (desc.map Prod.fst).Nodup)
      (hkeys : ∀ f ∈ fs.map Prod.fst, f ≠ "" ∧ goTitle (lowerFirst f) = f)
      (hfields : ∀ p ∈ List.zip desc fs, JRep reg p.1.2 p.2.2) :
      JRep reg (.ptr (.named n)) (.ptr (.structV n fs))

/-- A registry with one qualified type `pkg.Foo` of a single int field, for
concrete statements. -/
def regPkgFoo : Registry := [("pkg.Foo", [("A", GoType.int)])]

/-- A decoder recognising the document name "doc" as `{"a": 5}`. -/
def umFooDoc : Unmarshal :=
  fun s => if s = "doc" then .ok [("a", Json.num 5)] else .error "syntax"

/-- Helper: the row loop consumes a cleanly comparing prefix of the actual
stream and continues as if no expected rows were left. -/
theorem queryRowsLoop_clean_prefix (reg : Registry) (um : Unmarshal) (name : String)
    {specs : List Row} {pre : List (List ActualCol)} (post : List (List ActualCol))
    (h : List.Forall₂ (fun spec arow => compareRow reg um name spec arow = none) specs pre) :
    queryRowsLoop reg um name specs (pre ++ post) = queryRowsLoop reg um name [] post := by
  induction h with
  | nil => rfl
  | cons hc _ ih => simp only [List.cons_append, queryRowsLoop, hc]; exact ih

/-- Helper: a cleanly comparing actual stream no longer than the expected
rows makes the row loop finish silently. -/
theorem queryRowsLoop_clean_all (reg : Registry) (um : Unmarshal) (name : String) :
    ∀ (arows : List (List ActualCol)) (specs : List Row),
      List.Forall₂ (fun spec arow => compareRow reg um name spec arow = none)
        (specs.take arows.length) arows →
      arows.length ≤ specs.length →
      queryRowsLoop reg um name specs arows = none := by
  intro arows
  induction arows with
  | nil => intro specs _ _; simp [queryRowsLoop]
  | cons a ar ih =>
    intro specs h hlen
    match specs with
    | [] => simp at hlen
    | s :: sr =>
      simp only [List.length_cons, List.take_succ_cons] at h
      rcases h with _ | ⟨hc, hrest⟩
      simp only [queryRowsLoop, hc]
      exact ih sr hrest (by simpa using hlen)

/-- C1 (counterexample): with one expected row and an actual stream of two
matching rows, the query assertion fails with "less rows expected", not the
claimed "more rows expected"; with an empty actual stream it fails with
"more rows expected", not the claimed "less rows expected". -/
theorem c1_counterexample :
    runQueryRows [] umNone "t" [intRowSpec] [intActualRow, intActualRow] none =
      some (.testErr "t" "less rows expected") ∧
    runQueryRows [] umNone "t" [intRowSpec] [intActualRow, intActualRow] none ≠
      some (.testErr "t" "more rows expected") ∧
    runQueryRows [] umNone "t" [intRowSpec] [] none =
      some (.testErr "t" "more rows expected") ∧
    runQueryRows [] umNone "t" [intRowSpec] [] none ≠
      some (.testErr "t" "less rows expected") := by
  have h1 : runQueryRows [] umNone "t" [intRowSpec] [intActualRow, intActualRow] none =
      some (.testErr "t" "less rows expected") := by
    simp [runQueryRows, queryRowsLoop, compareRow, intRowSpec, intActualRow,
      buildExpectedCols, buildObject, buildIntCase, compareCols, compareColumn,
      isPtrKind, typeOf, deepEqual]
  have h2 : runQueryRows [] umNone "t" [intRowSpec] [] none =
      some (.testErr "t" "more rows expected") := by
    simp [runQueryRows, queryRowsLoop, intRowSpec]
  exact ⟨h1, by simp [h1], h2, by simp [h2]⟩

/-- C1 (amended): in a query assertion, when the actual result set yields
more rows than expected (the expected rows comparing clean), the scenario
fails with "less rows expected" (read: fewer rows were expected than
arrived), raised mid-stream at the first surplus actual row; when the
actual result set yields fewer rows than expected (all of them comparing
clean, the stream ending without error), it fails with "more rows expected"
(read: more rows were expected than arrived). -/
theorem c1_row_count_messages (reg : Registry) (um : Unmarshal) (name : String)
    (specs : List Row) :
    (∀ (pre post : List (List ActualCol)) (fe : Option String), post ≠ [] →
      List.Forall₂ (fun spec arow => compareRow reg um name spec arow = none) specs pre →
      runQueryRows reg um name specs (pre ++ post) fe =
        some (.testErr name "less rows expected")) ∧
    (∀ arows : List (List ActualCol),
      arows.length < specs.length →
      List.Forall₂ (fun spec arow => compareRow reg um name spec arow = none)
        (specs.take arows.length) arows →
      runQueryRows reg um name specs arows none =
        some (.testErr name "more rows expected")) := by
  constructor
  · intro pre post fe hpost h
    simp only [runQueryRows, queryRowsLoop_clean_prefix reg um name post h]
    match post, hpost with
    | a :: rest, _ => simp [queryRowsLoop]
  · intro arows hlen h
    simp only [runQueryRows, queryRowsLoop_clean_all reg um name arows specs h (le_of_lt hlen)]
    simp [hlen]

/-- C1 (witness for the amended theorem): two matching actual rows against
one expected row yield "less rows expected"; an empty actual stream against
one expected row yields "more rows expected". -/
theorem c1_row_count_messages_witness :
    runQueryRows [] umNone "t" [intRowSpec] ([intActualRow] ++ [intActualRow]) none =
      some (.testErr "t" "less rows expected") ∧
    runQueryRows [] umNone "t" [intRowSpec] [] none =
      some (.testErr "t" "more rows expected") := by
  have h := c1_row_count_messages [] umNone "t" [intRowSpec]
  refine ⟨h.1 [intActualRow] [intActualRow] none (by simp) ?_, h.2 [] (by simp) (by simp)⟩
  refine List.Forall₂.cons ?_ List.Forall₂.nil
  simp [compareRow, intRowSpec, intActualRow, buildExpectedCols, buildObject,
    buildIntCase, compareCols, compareColumn, isPtrKind, typeOf, deepEqual]

/-- C3: when the act outcome carries a non-nil error and the assertion
under evaluation declares no expected error, the scenario fails right there
with "unexpected error: <message>", regardless of the assertion's query or
value content, of the database, and of any remaining assertions (which are
never evaluated). -/
theorem c3_unexpected_error_short_circuits (reg : Registry) (um : Unmarshal) (db : DB)
    (name mname : String) (vals : List GoVal) (msg : String) (ass : Assert)
    (rest : List Assert) (openC : Nat) (log : List Nat) (h : ass.error = "") :
    runAsserts reg um db name mname ⟨vals, .err msg⟩ (ass :: rest) openC log =
      (.testErr name ("unexpected error: " ++ msg), log) := by
  simp [runAsserts, h]

/-- C3 (witness): a query assertion with no declared error, evaluated under
an act error "boom", fails with "unexpected error: boom". -/
theorem c3_unexpected_error_witness :
    runAsserts [] umNone dbEmpty "t" "M" ⟨[], .err "boom"⟩ [queryAssert "SELECT 1"] 0 [] =
      (.testErr "t" "unexpected error: boom", []) :=
  c3_unexpected_error_short_circuits [] umNone dbEmpty "t" "M" [] "boom"
    (queryAssert "SELECT 1") [] 0 [] rfl

/-- C8: once the act method resolves and its declared parameter count
(receiver included) differs from the supplied argument count plus one, the
scenario fails with the arity error whatever the argument descriptions are
and whatever the method would do when invoked: no argument is built and the
method is not called. -/
theorem c8_arity_mismatch_fails_early (reg : Registry) (um : Unmarshal) (t : DBTest)
    (db : DB) (service : Service) (mth : Method)
    (harr : runArrange db t.arrange = none)
    (hm : lookupMethod service t.act.method = some mth)
    (hn : mth.numIn ≠ t.act.arguments.length + 1) :
    DBTest.run reg um t db service =
      (.err ("invalid number of arguments to method '" ++ t.act.method ++ "'"), []) := by
  simp [DBTest.run, harr, hm, hn]

/-- C8 (witness): a method declaring five parameters, invoked with no
arguments, fails with the arity error. -/
theorem c8_arity_mismatch_witness :
    DBTest.run [] umNone ⟨"t", [], ⟨"M", []⟩, []⟩ dbEmpty
        [("M", ⟨5, fun _ => ⟨[], .nil⟩⟩)] =
      (.err "invalid number of arguments to method 'M'", []) :=
  c8_arity_mismatch_fails_early [] umNone ⟨"t", [], ⟨"M", []⟩, []⟩ dbEmpty
    [("M", ⟨5, fun _ => ⟨[], .nil⟩⟩)] ⟨5, fun _ => ⟨[], .nil⟩⟩
    rfl (by simp [lookupMethod]) (by simp)

/-- C9: a scenario with two passing query assertions runs the second query
while the first assertion's cursor is still open (the deferred closes run
only at `DBTest.Run`'s exit), so the cursor log reads one open cursor at
the second acquisition — it is not the case that every query assertion
starts with all previous cursors released. -/
theorem c9_cursor_open_at_second_query :
    DBTest.run [] umNone twoQueryScenario dbEmpty svcM = (.ok, [0, 1]) ∧
    ¬ (∀ c ∈ (DBTest.run [] umNone twoQueryScenario dbEmpty svcM).2, c = 0) := by
  have h : DBTest.run [] umNone twoQueryScenario dbEmpty svcM = (.ok, [0, 1]) := by
    simp [DBTest.run, runArrange, lookupMethod, svcM, twoQueryScenario, buildArgs,
      runAsserts, queryAssert, dbEmpty, runQueryRows, queryRowsLoop]
  exact ⟨h, by simp [h]⟩

/-- C10: `BuildObject` panics rather than erroring on a tag whose text after
the last dot is empty (the uppercase check slices an empty string), and on a
structured-form field whose key is the empty string (title-casing slices an
empty string). -/
theorem c10_empty_name_panics :
    buildObject [] umNone ⟨"pkg.", .null⟩ = .panic ∧
    buildObject [("Foo", [("Field1", GoType.int)])] umNone
        ⟨"Foo", .map [("", .null)]⟩ = .panic := by
  constructor <;>
    simp [buildObject, customTagCheck, lastComp, lastCompAux, firstChar, lookupReg,
      buildCustomValue, buildFields]

/-- C5: the `string` and `int` tags return the supplied value unchanged
exactly when it already has the declared native representation, failing
otherwise (in particular no string-to-int coercion); the `context` tag
succeeds exactly on the string "background", producing the root context,
and fails on every other value. -/
theorem c5_primitive_tags (reg : Registry) (um : Unmarshal) :
    (∀ s, buildObject reg um ⟨"string", .str s⟩ = .ok (.str s)) ∧
    (∀ v, (∀ s, v ≠ .str s) →
      buildObject reg um ⟨"string", v⟩ =
        .err "type 'string' expects value of type 'string'") ∧
    (∀ n, buildObject reg um ⟨"int", .int n⟩ = .ok (.int n)) ∧
    (∀ v, (∀ n, v ≠ .int n) →
      buildObject reg um ⟨"int", v⟩ = .err "type 'int' expects value of type 'int'") ∧
    (buildObject reg um ⟨"context", .str "background"⟩ = .ok .ctxBackground) ∧
    (∀ s, s ≠ "background" →
      buildObject reg um ⟨"context", .str s⟩ =
        .err "type 'context' expects value 'background'") ∧
    (∀ v, (∀ s, v ≠ .str s) →
      buildObject reg um ⟨"context", v⟩ =
        .err "type 'context' expects value of type 'string'") := by
  refine ⟨fun s => by simp [buildObject, buildStringCase],
    fun v hv => ?_,
    fun n => by simp [buildObject, buildIntCase],
    fun v hv => ?_,
    by simp [buildObject, buildContextCase],
    fun s hs => by simp [buildObject, buildContextCase, hs],
    fun v hv => ?_⟩
  · cases v <;> first
      | exact absurd rfl (hv _)
      | simp [buildObject, buildStringCase]
  · cases v <;> first
      | exact absurd rfl (hv _)
      | simp [buildObject, buildIntCase]
  · cases v <;> first
      | exact absurd rfl (hv _)
      | simp [buildObject, buildContextCase]

/-- C5 (witness): concrete primitive constructions and failures. -/
theorem c5_primitive_tags_witness :
    buildObject [] umNone ⟨"string", .str "a"⟩ = .ok (.str "a") ∧
    buildObject [] umNone ⟨"string", .int 5⟩ =
      .err "type 'string' expects value of type 'string'" ∧
    buildObject [] umNone ⟨"int", .int 7⟩ = .ok (.int 7) ∧
    buildObject [] umNone ⟨"int", .str "7"⟩ =
      .err "type 'int' expects value of type 'int'" ∧
    buildObject [] umNone ⟨"context", .str "background"⟩ = .ok .ctxBackground ∧
    buildObject [] umNone ⟨"context", .str "x"⟩ =
      .err "type 'context' expects value 'background'" ∧
    buildObject [] umNone ⟨"context", .int 1⟩ =
      .err "type 'context' expects value of type 'string'" := by
  have h := c5_primitive_tags [] umNone
  exact ⟨h.1 "a", h.2.1 (.int 5) (fun s hs => by cases hs), h.2.2.1 7,
    h.2.2.2.1 (.str "7") (fun n hn => by cases hn), h.2.2.2.2.1,
    h.2.2.2.2.2.1 "x" (by decide), h.2.2.2.2.2.2 (.int 1) (fun s hs => by cases hs)⟩

/-- C7: a non-built-in tag fails with the empty-tag error when empty; with
the uppercase error when the name after its last dot is nonempty and its
first character is changed by upper-casing (the code's reading of "does not
start with an uppercase letter"); and with "unknown custom type" when that
name is well-formed but the tag is not in the registry. -/
theorem c7_custom_tag_errors (reg : Registry) (um : Unmarshal) (ty : String) (v : Value)
    (hc : ty ≠ "context") (hs : ty ≠ "string") (hi : ty ≠ "int") (ha : ty ≠ "array") :
    (ty = "" → buildObject reg um ⟨ty, v⟩ = .err "object type mustn't be empty") ∧
    (lastComp ty ≠ "" → firstChar (lastComp ty) ≠ (firstChar (lastComp ty)).toUpper →
      buildObject reg um ⟨ty, v⟩ =
        .err ("custom type '" ++ ty ++ "' doesn't begin with an uppercase letter")) ∧
    (lastComp ty ≠ "" → firstChar (lastComp ty) = (firstChar (lastComp ty)).toUpper →
      lookupReg reg ty = none →
      buildObject reg um ⟨ty, v⟩ = .err ("unknown custom type '" ++ ty ++ "'")) := by
  refine ⟨fun h0 => by simp [buildObject, h0, customTagCheck],
    fun hn hu => ?_, fun hn hu hreg => ?_⟩
  · have h0 : ty ≠ "" := fun h => hn (by simp [h, lastComp, lastCompAux])
    have hct : customTagCheck ty =
        some (.err ("custom type '" ++ ty ++ "' doesn't begin with an uppercase letter")) := by
      unfold customTagCheck
      rw [if_neg h0, if_neg hn, if_pos hu]
    simp [buildObject, hc, hs, hi, ha, hct]
  · have h0 : ty ≠ "" := fun h => hn (by simp [h, lastComp, lastCompAux])
    have hct : customTagCheck ty = none := by
      unfold customTagCheck
      rw [if_neg h0, if_neg hn, if_neg (not_not_intro hu)]
    simp [buildObject, hc, hs, hi, ha, hct, hreg]

/-- C7 (witness): the empty tag, a lower-case custom name and an unknown
well-formed custom name each fail with their distinguishing error. -/
theorem c7_custom_tag_errors_witness :
    buildObject [] umNone ⟨"", .null⟩ = .err "object type mustn't be empty" ∧
    buildObject [] umNone ⟨"pkg.foo", .null⟩ =
      .err "custom type 'pkg.foo' doesn't begin with an uppercase letter" ∧
    buildObject [] umNone ⟨"Bar", .null⟩ = .err "unknown custom type 'Bar'" := by
  have h1 := c7_custom_tag_errors [] umNone "" Value.null
    (by decide) (by decide) (by decide) (by decide)
  have h2 := c7_custom_tag_errors [] umNone "pkg.foo" Value.null
    (by decide) (by decide) (by decide) (by decide)
  have h3 := c7_custom_tag_errors [] umNone "Bar" Value.null
    (by decide) (by decide) (by decide) (by decide)
  exact ⟨h1.1 rfl, h2.2.1 (by decide) (by decide), h3.2.2 (by decide) (by decide) rfl⟩

/-- Helper: the array element loop succeeds on elements that all build to
the element type, in input order. -/
theorem buildArrayLoop_ok (reg : Registry) (um : Unmarshal) (t : GoType)
    {ms : List (List (String × Value))} {vs : List GoVal}
    (h : List.Forall₂ (fun m v => buildObjectFromMap reg um m = .ok v) ms vs)
    (hT : ∀ v ∈ vs, typeOf v = t) :
    buildArrayLoop reg um t (ms.map Value.map) = .ok vs := by
  induction h with
  | nil => simp [buildArrayLoop]
  | @cons m v ms2 vs2 hm hrest ih =>
    have ht : typeOf v = t := hT v (List.mem_cons_self v vs2)
    have ih2 := ih (fun w hw => hT w (List.mem_cons_of_mem v hw))
    simp [buildArrayLoop, hm, ht, ih2]

/-- Helper: the array element loop never succeeds on a list containing a
non-map element. -/
theorem buildArrayLoop_nonmap (reg : Registry) (um : Unmarshal) (t : GoType) :
    ∀ xs : List Value, (∃ el ∈ xs, ∀ m, el ≠ .map m) →
      ∀ ws, buildArrayLoop reg um t xs ≠ .ok ws := by
  intro xs
  induction xs with
  | nil => rintro ⟨el, h, _⟩; cases h
  | cons x rest ih =>
    rintro ⟨el, hel, hnm⟩ ws hok
    cases x with
    | map m =>
      rcases List.mem_cons.mp hel with rfl | hel2
      · exact hnm m rfl
      · rw [buildArrayLoop] at hok
        rcases hbm : buildObjectFromMap reg um m with v | e | _ <;> simp only [hbm] at hok <;>
          try exact ValsResult.noConfusion hok
        by_cases hvt : typeOf v = t
        · rw [if_pos hvt] at hok
          rcases hloop : buildArrayLoop reg um t rest with ws2 | e2 | _ <;>
            simp only [hloop] at hok <;> try exact ValsResult.noConfusion hok
          exact ih ⟨el, hel2, hnm⟩ ws2 hloop
        · rw [if_neg hvt] at hok
          exact ValsResult.noConfusion hok
    | null => simp [buildArrayLoop] at hok
    | str s => simp [buildArrayLoop] at hok
    | int n => simp [buildArrayLoop] at hok
    | bool b => simp [buildArrayLoop] at hok
    | list l => simp [buildArrayLoop] at hok

/-- Helper: the array element loop fails with the type-mismatch error when
the elements build but one of them builds to a type other than the element
type. -/
theorem buildArrayLoop_mismatch (reg : Registry) (um : Unmarshal) (t : GoType)
    {ms : List (List (String × Value))} {vs : List GoVal}
    (h : List.Forall₂ (fun m v => buildObjectFromMap reg um m = .ok v) ms vs)
    (hbad : ∃ v ∈ vs, typeOf v ≠ t) :
    buildArrayLoop reg um t (ms.map Value.map) = .err "type mismatch in array" := by
  induction h with
  | nil => rcases hbad with ⟨v, hv, _⟩; cases hv
  | @cons m v ms2 vs2 hm hrest ih =>
    rcases hbad with ⟨w, hw, hwt⟩
    by_cases hvt : typeOf v = t
    · rcases List.mem_cons.mp hw with rfl | hw2
      · exact absurd hvt hwt
      · simp [buildArrayLoop, hm, hvt, ih ⟨w, hw2, hwt⟩]
    · simp [buildArrayLoop, hm, hvt]

/-- C4: the `array` tag on a non-empty sequence of element descriptions that
all build to the same concrete type yields the ordered slice of the built
elements in input order; an empty sequence, a non-sequence value, a
sequence containing a non-map element, and a sequence whose elements build
to two different concrete types all fail. -/
theorem c4_array_construction (reg : Registry) (um : Unmarshal) :
    (∀ (m0 : List (String × Value)) (ms : List (List (String × Value)))
        (v0 : GoVal) (vs : List GoVal),
      buildObjectFromMap reg um m0 = .ok v0 →
      List.Forall₂ (fun m v => buildObjectFromMap reg um m = .ok v) ms vs →
      (∀ v ∈ vs, typeOf v = typeOf v0) →
      buildObject reg um ⟨"array", .list ((m0 :: ms).map Value.map)⟩ =
        .ok (.slice (typeOf v0) (v0 :: vs))) ∧
    (buildObject reg um ⟨"array", .list []⟩ =
      .err "type 'array' expects value of type 'array of maps' which mustn't be empty") ∧
    (∀ v : Value, (∀ xs, v ≠ .list xs) →
      buildObject reg um ⟨"array", v⟩ =
        .err "type 'array' expects value of type 'array of maps' which mustn't be empty") ∧
    (∀ xs : List Value, (∃ el ∈ xs, ∀ m, el ≠ .map m) →
      ∀ w, buildObject reg um ⟨"array", .list xs⟩ ≠ .ok w) ∧
    (∀ (ms : List (List (String × Value))) (vs : List GoVal),
      List.Forall₂ (fun m v => buildObjectFromMap reg um m = .ok v) ms vs →
      (∃ va ∈ vs, ∃ vb ∈ vs, typeOf va ≠ typeOf vb) →
      buildObject reg um ⟨"array", .list (ms.map Value.map)⟩ =
        .err "type mismatch in array") := by
  refine ⟨?_, by simp [buildObject, buildArrayCase], ?_, ?_, ?_⟩
  · intro m0 ms v0 vs h0 h hT
    simp [buildObject, buildArrayCase, h0, buildArrayLoop_ok reg um (typeOf v0) h hT]
  · intro v hv
    cases v <;> first
      | exact absurd rfl (hv _)
      | simp [buildObject, buildArrayCase]
  · intro xs hx w hok
    match xs, hx with
    | x :: rest, hx =>
      simp only [buildObject, String.reduceEq, reduceIte] at hok
      rcases hx with ⟨el, hel, hnm⟩
      cases x with
      | map m0 =>
        simp only [buildArrayCase] at hok
        rcases List.mem_cons.mp hel with rfl | hel2
        · exact hnm m0 rfl
        · rcases hbm : buildObjectFromMap reg um m0 with v | e | _ <;> simp only [hbm] at hok <;>
            try exact BuildResult.noConfusion hok
          rcases hloop : buildArrayLoop reg um (typeOf v) rest with ws2 | e2 | _ <;>
            simp only [hloop] at hok <;> try exact BuildResult.noConfusion hok
          exact buildArrayLoop_nonmap reg um (typeOf v) rest ⟨el, hel2, hnm⟩ ws2 hloop
      | null => simp [buildArrayCase] at hok
      | str s => simp [buildArrayCase] at hok
      | int n => simp [buildArrayCase] at hok
      | bool b => simp [buildArrayCase] at hok
      | list l => simp [buildArrayCase] at hok
  · intro ms vs h hbad
    rcases h with _ | @⟨m0, v0, ms2, vs2, hm0, hrest⟩
    · rcases hbad with ⟨va, hva, _⟩; cases hva
    · have hbad2 : ∃ w ∈ vs2, typeOf w ≠ typeOf v0 := by
        by_contra hall
        push_neg at hall
        rcases hbad with ⟨va, hva, vb, hvb, hab⟩
        have hta : typeOf va = typeOf v0 := by
          rcases List.mem_cons.mp hva with rfl | h2
          · rfl
          · exact hall va h2
        have htb : typeOf vb = typeOf v0 := by
          rcases List.mem_cons.mp hvb with rfl | h2
          · rfl
          · exact hall vb h2
        exact hab (hta.trans htb.symm)
      simp [buildObject, buildArrayCase, hm0,
        buildArrayLoop_mismatch reg um (typeOf v0) hrest hbad2]

/-- C4 (witness): a two-element homogeneous int description builds the
ordered slice; the empty list, a string value, a list containing a
non-map element, and a heterogeneous list all fail. -/
theorem c4_array_construction_witness :
    buildObject [] umNone ⟨"array", .list [.map [("type", .str "int"), ("value", .int 1)],
        .map [("type", .str "int"), ("value", .int 2)]]⟩ =
      .ok (.slice .int [.int 1, .int 2]) ∧
    buildObject [] umNone ⟨"array", .list []⟩ =
      .err "type 'array' expects value of type 'array of maps' which mustn't be empty" ∧
    buildObject [] umNone ⟨"array", .str "zz"⟩ =
      .err "type 'array' expects value of type 'array of maps' which mustn't be empty" ∧
    (∀ w, buildObject [] umNone ⟨"array", .list [.null]⟩ ≠ .ok w) ∧
    buildObject [] umNone ⟨"array", .list [.map [("type", .str "int"), ("value", .int 1)],
        .map [("type", .str "string"), ("value", .str "a")]]⟩ =
      .err "type mismatch in array" := by
  have h := c4_array_construction [] umNone
  have hbuild1 : buildObjectFromMap [] umNone [("type", .str "int"), ("value", .int 1)] =
      .ok (.int 1) := by
    simp [buildObjectFromMap, lookupSized, buildObject, buildIntCase]
  have hbuild2 : buildObjectFromMap [] umNone [("type", .str "int"), ("value", .int 2)] =
      .ok (.int 2) := by
    simp [buildObjectFromMap, lookupSized, buildObject, buildIntCase]
  have hbuild3 : buildObjectFromMap [] umNone [("type", .str "string"), ("value", .str "a")] =
      .ok (.str "a") := by
    simp [buildObjectFromMap, lookupSized, buildObject, buildStringCase]
  refine ⟨?_, h.2.1, h.2.2.1 (.str "zz") (fun xs hxs => by cases hxs),
    h.2.2.2.1 [.null] ⟨.null, List.mem_singleton_self _, fun m hm => by cases hm⟩, ?_⟩
  · have := h.1 [("type", .str "int"), ("value", .int 1)]
      [[("type", .str "int"), ("value", .int 2)]] (.int 1) [.int 2] hbuild1
      (List.Forall₂.cons hbuild2 List.Forall₂.nil)
      (by intro v hv; rcases List.mem_singleton.mp hv with rfl; rfl)
    simpa [typeOf] using this
  · have := h.2.2.2.2 [[("type", .str "int"), ("value", .int 1)],
        [("type", .str "string"), ("value", .str "a")]] [.int 1, .str "a"]
      (List.Forall₂.cons hbuild1 (List.Forall₂.cons hbuild3 List.Forall₂.nil))
      ⟨.int 1, by simp, .str "a", by simp, by simp [typeOf]⟩
    simpa using this

/-- Helper: the zero value of a type has that type, at every fuel. -/
theorem typeOf_zeroValF (reg : Registry) (fuel : Nat) (t : GoType) :
    typeOf (zeroValF reg fuel t) = t := by
  cases t with
  | string => cases fuel <;> simp [zeroValF, typeOf]
  | int => cases fuel <;> simp [zeroValF, typeOf]
  | ctx => cases fuel <;> simp [zeroValF, typeOf]
  | slice e => cases fuel <;> simp [zeroValF, typeOf]
  | ptr e => cases fuel <;> simp [zeroValF, typeOf]
  | named n =>
    cases fuel with
    | zero => simp [zeroValF, typeOf]
    | succ f => rcases h : lookupReg reg n with _ | d <;> simp [zeroValF, typeOf, h]

/-- Helper: setting one field leaves every other field's lookup unchanged. -/
theorem findField_setField_ne (key fn : String) (w : GoVal) (h : key ≠ fn) :
    ∀ inst : List (String × GoVal),
      findField (setField inst key w) fn = findField inst fn := by
  intro inst
  induction inst with
  | nil => rfl
  | cons p rest ih =>
    obtain ⟨n, v⟩ := p
    by_cases hn : n = key
    · subst hn
      simp only [setField, if_pos rfl, findField]
      rw [if_neg h, if_neg h]
    · simp only [setField, if_neg hn, findField]
      by_cases hf : n = fn
      · simp [hf]
      · simp [hf, ih]

/-- Helper: looking a declared field up in a freshly zeroed instance yields
the zero value of its declared type (field names distinct, as in Go). -/
theorem findField_zeroFieldsF (reg : Registry) (fuel : Nat) :
    ∀ (desc : StructDesc) (fn : String) (ft : GoType),
      (fn, ft) ∈ desc → (desc.map Prod.fst).Nodup →
      findField (zeroFieldsF reg fuel desc) fn = some (zeroValF reg fuel ft) := by
  intro desc
  induction desc with
  | nil => intro fn ft h _; cases h
  | cons d rest ih =>
    intro fn ft h hnd
    obtain ⟨n, t⟩ := d
    rw [List.map_cons] at hnd
    have hnotin := (List.nodup_cons.mp hnd).1
    have hndr := (List.nodup_cons.mp hnd).2
    rcases List.mem_cons.mp h with heq | hmem
    · injection heq with h1 h2
      subst h1
      subst h2
      simp [zeroFieldsF, findField]
    · have hne : n ≠ fn := by
        intro hEq
        subst hEq
        exact hnotin (List.mem_map.mpr ⟨(n, ft), hmem, rfl⟩)
      simp [zeroFieldsF, findField, hne, ih fn ft hmem hndr]

/-- Helper: replacing a field's value at the same key keeps the field-type
views of two instances equal whenever they were equal before. -/
theorem fieldTypes_setField_congr (key : String) (w : GoVal) :
    ∀ {inst inst2 : List (String × GoVal)},
      fieldTypes inst = fieldTypes inst2 →
      fieldTypes (setField inst key w) = fieldTypes (setField inst2 key w) := by
  intro inst
  induction inst with
  | nil =>
    intro inst2 h
    cases inst2 with
    | nil => rfl
    | cons q r => simp [fieldTypes] at h
  | cons p rest ih =>
    intro inst2 h
    cases inst2 with
    | nil => simp [fieldTypes] at h
    | cons q r =>
      obtain ⟨n, v⟩ := p
      obtain ⟨n2, v2⟩ := q
      simp only [fieldTypes, List.map_cons, List.cons.injEq, Prod.mk.injEq] at h
      obtain ⟨⟨hname, htype⟩, htail⟩ := h
      subst hname
      by_cases hn : n = key
      · subst hn
        simp only [setField, if_pos rfl, fieldTypes, List.map_cons]
        exact congrArg (List.cons _) htail
      · simp only [setField, if_neg hn, fieldTypes, List.map_cons]
        rw [htype]
        exact congrArg (List.cons _) (ih htail)

/-- Helper: equal field-type views resolve the same field names, to values
of the same type. -/
theorem findField_of_fieldTypes_eq (key : String) :
    ∀ {inst inst2 : List (String × GoVal)} {cur : GoVal},
      fieldTypes inst = fieldTypes inst2 →
      findField inst key = some cur →
      ∃ cur2, findField inst2 key = some cur2 ∧ typeOf cur2 = typeOf cur := by
  intro inst
  induction inst with
  | nil => intro inst2 cur _ hf; cases hf
  | cons p rest ih =>
    intro inst2 cur h hf
    cases inst2 with
    | nil => simp [fieldTypes] at h
    | cons q r =>
      obtain ⟨n, v⟩ := p
      obtain ⟨n2, v2⟩ := q
      simp only [fieldTypes, List.map_cons, List.cons.injEq, Prod.mk.injEq] at h
      obtain ⟨⟨hname, htype⟩, htail⟩ := h
      subst hname
      simp only [findField] at hf ⊢
      by_cases hn : n = key
      · rw [if_pos hn] at hf ⊢
        refine ⟨v2, rfl, ?_⟩
        injection hf with h2
        rw [← h2]
        exact htype.symm
      · rw [if_neg hn] at hf ⊢
        exact ih htail hf

/-- Helper: the tag checks return only errors or panics, never a built
value. -/
theorem customTagCheck_some_not_ok (ty : String) (r : BuildResult)
    (h : customTagCheck ty = some r) : ∀ w, r ≠ .ok w := by
  intro w
  unfold customTagCheck at h
  split at h
  · injection h with h2; rw [← h2]; exact fun hc => BuildResult.noConfusion hc
  · split at h
    · injection h with h2; rw [← h2]; exact fun hc => BuildResult.noConfusion hc
    · split at h
      · injection h with h2; rw [← h2]; exact fun hc => BuildResult.noConfusion hc
      · cases h

/-- Helper: a successful `context` build is the background context. -/
theorem buildContextCase_ok_shape {ty : String} {val : Value} {v : GoVal}
    (h : buildContextCase ty val = .ok v) : v = .ctxBackground := by
  cases val with
  | str s =>
    simp only [buildContextCase] at h
    split at h
    · exact (BuildResult.ok.inj h).symm
    · exact BuildResult.noConfusion h
  | null => exact BuildResult.noConfusion h
  | int n => exact BuildResult.noConfusion h
  | bool b => exact BuildResult.noConfusion h
  | map es => exact BuildResult.noConfusion h
  | list xs => exact BuildResult.noConfusion h

/-- Helper: a successful `string` build is a string. -/
theorem buildStringCase_ok_shape {ty : String} {val : Value} {v : GoVal}
    (h : buildStringCase ty val = .ok v) : ∃ s, v = .str s := by
  cases val with
  | str s => exact ⟨s, (BuildResult.ok.inj h).symm⟩
  | null => exact BuildResult.noConfusion h
  | int n => exact BuildResult.noConfusion h
  | bool b => exact BuildResult.noConfusion h
  | map es => exact BuildResult.noConfusion h
  | list xs => exact BuildResult.noConfusion h

/-- Helper: a successful `int` build is an integer. -/
theorem buildIntCase_ok_shape {ty : String} {val : Value} {v : GoVal}
    (h : buildIntCase ty val = .ok v) : ∃ n, v = .int n := by
  cases val with
  | int n => exact ⟨n, (BuildResult.ok.inj h).symm⟩
  | null => exact BuildResult.noConfusion h
  | str s => exact BuildResult.noConfusion h
  | bool b => exact BuildResult.noConfusion h
  | map es => exact BuildResult.noConfusion h
  | list xs => exact BuildResult.noConfusion h

/-- Helper: a successful `array` build is a slice. -/
theorem buildArrayCase_ok_shape {reg : Registry} {um : Unmarshal} {ty : String}
    {val : Value} {v : GoVal} (h : buildArrayCase reg um ty val = .ok v) :
    ∃ t vs, v = .slice t vs := by
  cases val with
  | list xs =>
    cases xs with
    | nil => simp [buildArrayCase] at h
    | cons el0 rest =>
      cases el0 with
      | map m0 =>
        simp only [buildArrayCase] at h
        rcases h0 : buildObjectFromMap reg um m0 with v0 | e | _ <;> simp only [h0] at h <;>
          try exact BuildResult.noConfusion h
        rcases hl : buildArrayLoop reg um (typeOf v0) rest with vs | e | _ <;>
          simp only [hl] at h <;> try exact BuildResult.noConfusion h
        exact ⟨typeOf v0, v0 :: vs, (BuildResult.ok.inj h).symm⟩
      | null => simp [buildArrayCase] at h
      | str s => simp [buildArrayCase] at h
      | int n => simp [buildArrayCase] at h
      | bool b => simp [buildArrayCase] at h
      | list l => simp [buildArrayCase] at h
  | null => simp [buildArrayCase] at h
  | str s => simp [buildArrayCase] at h
  | int n => simp [buildArrayCase] at h
  | bool b => simp [buildArrayCase] at h
  | map es => simp [buildArrayCase] at h

/-- Helper: on a non-struct type, the JSON struct builder returns the zero
pointer for an empty document and panics otherwise (`FieldByName` on a
non-struct). -/
theorem buildObjectFromJSONT_non_named (reg : Registry) (typ : GoType)
    (m : List (String × Json)) (hnn : ∀ n, typ ≠ .named n) :
    buildObjectFromJSONT reg typ m =
      match m with
      | [] => .ok (.ptr (zeroVal reg typ))
      | _ :: _ => .panic := by
  cases typ with
  | named n => exact absurd rfl (hnn n)
  | string => cases m <;> simp [buildObjectFromJSONT]
  | int => cases m <;> simp [buildObjectFromJSONT]
  | ctx => cases m <;> simp [buildObjectFromJSONT]
  | slice e => cases m <;> simp [buildObjectFromJSONT]
  | ptr e => cases m <;> simp [buildObjectFromJSONT]

/-- Helper: a successful JSON struct build is a pointer. -/
theorem buildObjectFromJSONT_ok_shape {reg : Registry} {typ : GoType}
    {m : List (String × Json)} {v : GoVal} (h : buildObjectFromJSONT reg typ m = .ok v) :
    ∃ w, v = .ptr w := by
  cases typ with
  | named n =>
    simp only [buildObjectFromJSONT] at h
    rcases hr : lookupReg reg n with _ | desc <;> simp only [hr] at h
    · exact BuildResult.noConfusion h
    · rcases hf : buildJsonFields reg n (zeroStruct reg desc) m with flds | e | _ <;>
        simp only [hf] at h <;> try exact BuildResult.noConfusion h
      exact ⟨_, (BuildResult.ok.inj h).symm⟩
  | string =>
    rw [buildObjectFromJSONT_non_named reg _ m (fun n hn => by cases hn)] at h
    cases m with
    | nil => exact ⟨_, (BuildResult.ok.inj h).symm⟩
    | cons p r => exact BuildResult.noConfusion h
  | int =>
    rw [buildObjectFromJSONT_non_named reg _ m (fun n hn => by cases hn)] at h
    cases m with
    | nil => exact ⟨_, (BuildResult.ok.inj h).symm⟩
    | cons p r => exact BuildResult.noConfusion h
  | ctx =>
    rw [buildObjectFromJSONT_non_named reg _ m (fun n hn => by cases hn)] at h
    cases m with
    | nil => exact ⟨_, (BuildResult.ok.inj h).symm⟩
    | cons p r => exact BuildResult.noConfusion h
  | slice e =>
    rw [buildObjectFromJSONT_non_named reg _ m (fun n hn => by cases hn)] at h
    cases m with
    | nil => exact ⟨_, (BuildResult.ok.inj h).symm⟩
    | cons p r => exact BuildResult.noConfusion h
  | ptr e =>
    rw [buildObjectFromJSONT_non_named reg _ m (fun n hn => by cases hn)] at h
    cases m with
    | nil => exact ⟨_, (BuildResult.ok.inj h).symm⟩
    | cons p r => exact BuildResult.noConfusion h

/-- Helper: a successful custom-type build is a pointer. -/
theorem buildCustomValue_ok_shape {reg : Registry} {um : Unmarshal} {ty : String}
    {desc : StructDesc} {val : Value} {v : GoVal}
    (h : buildCustomValue reg um ty desc val = .ok v) : ∃ w, v = .ptr w := by
  cases val with
  | map entries =>
    simp only [buildCustomValue] at h
    rcases hf : buildFields reg um ty (zeroStruct reg desc) entries with flds | e | _ <;>
      simp only [hf] at h <;> try exact BuildResult.noConfusion h
    exact ⟨_, (BuildResult.ok.inj h).symm⟩
  | str s =>
    simp only [buildCustomValue] at h
    rcases hu : um s with e | jm <;> simp only [hu] at h
    · exact BuildResult.noConfusion h
    · exact buildObjectFromJSONT_ok_shape h
  | null => simp [buildCustomValue] at h
  | int n => simp [buildCustomValue] at h
  | bool b => simp [buildCustomValue] at h
  | list xs => simp [buildCustomValue] at h

/-- Helper: `BuildObject` never produces a bare nil value: every branch's
successful result carries an explicit constructor. -/
theorem buildObject_ok_not_nil {reg : Registry} {um : Unmarshal} {o : Object} {v : GoVal}
    (h : buildObject reg um o = .ok v) : ∀ t0, v ≠ .nilV t0 := by
  obtain ⟨ty, val⟩ := o
  simp only [buildObject] at h
  by_cases h1 : ty = "context"
  · rw [if_pos h1] at h
    simp [buildContextCase_ok_shape h]
  · rw [if_neg h1] at h
    by_cases h2 : ty = "string"
    · rw [if_pos h2] at h
      obtain ⟨s, rfl⟩ := buildStringCase_ok_shape h
      simp
    · rw [if_neg h2] at h
      by_cases h3 : ty = "int"
      · rw [if_pos h3] at h
        obtain ⟨n, rfl⟩ := buildIntCase_ok_shape h
        simp
      · rw [if_neg h3] at h
        by_cases h4 : ty = "array"
        · rw [if_pos h4] at h
          obtain ⟨t, vs, rfl⟩ := buildArrayCase_ok_shape h
          simp
        · rw [if_neg h4] at h
          rcases hct : customTagCheck ty with _ | r <;> simp only [hct] at h
          · rcases hreg : lookupReg reg ty with _ | desc <;> simp only [hreg] at h
            · exact BuildResult.noConfusion h
            · obtain ⟨w, rfl⟩ := buildCustomValue_ok_shape h
              simp
          · exact absurd h (customTagCheck_some_not_ok ty r hct v)

/-- Helper: a successful nested map build is never a bare nil value. -/
theorem buildObjectFromMap_ok_not_nil {reg : Registry} {um : Unmarshal}
    {m : List (String × Value)} {bv : GoVal}
    (h : buildObjectFromMap reg um m = .ok bv) : ∀ t0, bv ≠ .nilV t0 := by
  simp only [buildObjectFromMap] at h
  rcases h1 : lookupSized m "type" with _ | tv <;> simp only [h1] at h
  · exact BuildResult.noConfusion h
  · obtain ⟨t, hsz⟩ := tv
    cases t with
    | str tn =>
      rcases h2 : lookupSized m "value" with _ | vv <;> simp only [h2] at h
      · exact BuildResult.noConfusion h
      · obtain ⟨v2, hsz2⟩ := vv
        exact buildObject_ok_not_nil h
    | null => exact BuildResult.noConfusion h
    | int n => exact BuildResult.noConfusion h
    | bool b => exact BuildResult.noConfusion h
    | map es => exact BuildResult.noConfusion h
    | list xs => exact BuildResult.noConfusion h

/-- Helper: a successfully built value of type int is an integer literal. -/
theorem buildObjectFromMap_ok_int {reg : Registry} {um : Unmarshal}
    {m : List (String × Value)} {bv : GoVal}
    (h : buildObjectFromMap reg um m = .ok bv) (ht : typeOf bv = .int) :
    ∃ n, bv = .int n := by
  cases bv with
  | int n => exact ⟨n, rfl⟩
  | nilV t0 =>
    simp only [typeOf] at ht
    exact absurd rfl (ht ▸ buildObjectFromMap_ok_not_nil h t0)
  | str s => simp [typeOf] at ht
  | ctxBackground => simp [typeOf] at ht
  | slice t xs => simp [typeOf] at ht
  | structV n fs => simp [typeOf] at ht
  | ptr w => simp [typeOf] at ht

/-- Helper: converting an integer to string lands in the string type. -/
theorem typeOf_goConvert_int_string (n : Int) :
    typeOf (goConvert (.int n) .string) = .string := by
  by_cases hc : 0 ≤ n ∧ n.toNat.isValidChar <;> simp [goConvert, hc, typeOf]

/-- Helper: inversion of one step of the structured-form field loop. -/
theorem buildFields_cons_inv {reg : Registry} {um : Unmarshal} {ty : String}
    {inst : List (String × GoVal)} {k : String} {v : Value}
    {rest : List (String × Value)} {flds : List (String × GoVal)}
    (h : buildFields reg um ty inst ((k, v) :: rest) = .ok flds) :
    k ≠ "" ∧ ∃ cur, findField inst (goTitle k) = some cur ∧
      ∃ m, v = .map m ∧ ∃ bv, buildObjectFromMap reg um m = .ok bv ∧
      ∃ w, typeOf w = typeOf cur ∧
        ((typeOf bv = typeOf cur ∧ w = bv) ∨
         (typeOf bv ≠ typeOf cur ∧ convertibleTo (typeOf bv) (typeOf cur) = true ∧
           w = goConvert bv (typeOf cur))) ∧
        buildFields reg um ty (setField inst (goTitle k) w) rest = .ok flds := by
  simp only [buildFields] at h
  by_cases hk : k = ""
  · rw [if_pos hk] at h; exact FieldsResult.noConfusion h
  · rw [if_neg hk] at h
    refine ⟨hk, ?_⟩
    rcases hf : findField inst (goTitle k) with _ | cur <;> simp only [hf] at h
    · exact FieldsResult.noConfusion h
    refine ⟨cur, rfl, ?_⟩
    cases v with
    | map m =>
      refine ⟨m, rfl, ?_⟩
      rcases hb : buildObjectFromMap reg um m with bv | e | _ <;> simp only [hb] at h <;>
        try exact FieldsResult.noConfusion h
      refine ⟨bv, rfl, ?_⟩
      by_cases ha : assignableTo (typeOf bv) (typeOf cur) = true
      · rw [if_pos ha] at h
        have ha2 : typeOf bv = typeOf cur := by simpa [assignableTo] using ha
        exact ⟨bv, ha2, Or.inl ⟨ha2, rfl⟩, h⟩
      · rw [if_neg ha] at h
        have ha2 : typeOf bv ≠ typeOf cur := fun hEq => ha (by simp [assignableTo, hEq])
        by_cases hc : convertibleTo (typeOf bv) (typeOf cur) = true
        · rw [if_pos hc] at h
          have hint : typeOf bv = .int ∧ typeOf cur = .string := by
            have := hc
            simp only [convertibleTo, Bool.or_eq_true, decide_eq_true_eq,
              Bool.and_eq_true] at this
            rcases this with hEq | hpair
            · exact absurd hEq ha2
            · exact hpair
          obtain ⟨n, rfl⟩ := buildObjectFromMap_ok_int hb hint.1
          refine ⟨goConvert (.int n) (typeOf cur), ?_, Or.inr ⟨ha2, hc, rfl⟩, h⟩
          rw [hint.2]
          exact typeOf_goConvert_int_string n
        · rw [if_neg hc] at h
          exact FieldsResult.noConfusion h
    | null => exact FieldsResult.noConfusion h
    | str s => exact FieldsResult.noConfusion h
    | int n => exact FieldsResult.noConfusion h
    | bool b => exact FieldsResult.noConfusion h
    | list xs => exact FieldsResult.noConfusion h

/-- Helper: setting a field to a value of the field's current type keeps the
field-type view unchanged. -/
theorem fieldTypes_setField_eq {key : String} {w cur : GoVal} :
    ∀ {inst : List (String × GoVal)},
      findField inst key = some cur → typeOf w = typeOf cur →
      fieldTypes (setField inst key w) = fieldTypes inst := by
  intro inst
  induction inst with
  | nil => intro h _; cases h
  | cons p rest ih =>
    intro h hw
    obtain ⟨n, v⟩ := p
    by_cases hn : n = key
    · simp only [findField, if_pos hn] at h
      injection h with h2
      simp only [setField, if_pos hn, fieldTypes, List.map_cons]
      rw [hw, h2]
    · simp only [findField, if_neg hn] at h
      simp only [setField, if_neg hn, fieldTypes, List.map_cons]
      exact congrArg (List.cons _) (ih h hw)

/-- Helper: fields named by no description entry keep their pre-loop
values. -/
theorem buildFields_preserves_unset {reg : Registry} {um : Unmarshal} {ty : String} :
    ∀ {entries : List (String × Value)} {inst flds : List (String × GoVal)},
      buildFields reg um ty inst entries = .ok flds →
      ∀ fn, (∀ e ∈ entries, goTitle e.1 ≠ fn) → findField flds fn = findField inst fn := by
  intro entries
  induction entries with
  | nil =>
    intro inst flds h fn _
    simp only [buildFields] at h
    injection h with h2
    rw [← h2]
  | cons e rest ih =>
    intro inst flds h fn hfn
    obtain ⟨k, v⟩ := e
    obtain ⟨hk, cur, hf, m, rfl, bv, hb, w, hw, hbr, hrest⟩ := buildFields_cons_inv h
    rw [ih hrest fn (fun e2 he2 => hfn e2 (List.mem_cons_of_mem _ he2))]
    exact findField_setField_ne (goTitle k) fn w
      (hfn (k, .map m) (List.mem_cons_self _ _)) inst

/-- Helper: a sublist of a successfully processed description also
processes successfully, from any instance with the same field-type view
(entry processing depends on the instance only through its field types). -/
theorem buildFields_sublist {reg : Registry} {um : Unmarshal} {ty : String} :
    ∀ {entries2 entries : List (String × Value)}, entries2.Sublist entries →
      ∀ {inst inst2 flds : List (String × GoVal)},
        fieldTypes inst2 = fieldTypes inst →
        buildFields reg um ty inst entries = .ok flds →
        ∃ flds2, buildFields reg um ty inst2 entries2 = .ok flds2 := by
  intro entries2 entries hsub
  induction hsub with
  | slnil => intro inst inst2 flds _ _; exact ⟨inst2, by simp [buildFields]⟩
  | cons a hsub2 ih =>
    intro inst inst2 flds hft h
    obtain ⟨k, v⟩ := a
    obtain ⟨hk, cur, hf, m, rfl, bv, hb, w, hw, hbr, hrest⟩ := buildFields_cons_inv h
    have hft2 : fieldTypes inst2 = fieldTypes (setField inst (goTitle k) w) := by
      rw [fieldTypes_setField_eq hf hw]
      exact hft
    exact ih hft2 hrest
  | @cons₂ l₂ l₁ a hsub2 ih =>
    intro inst inst2 flds hft h
    obtain ⟨k, v⟩ := a
    obtain ⟨hk, cur, hf, m, rfl, bv, hb, w, hw, hbr, hrest⟩ := buildFields_cons_inv h
    obtain ⟨cur2, hf2, hcur2⟩ := findField_of_fieldTypes_eq (goTitle k) hft.symm hf
    have hstep : buildFields reg um ty inst2 ((k, Value.map m) :: l₂) =
        buildFields reg um ty (setField inst2 (goTitle k) w) l₂ := by
      simp only [buildFields, if_neg hk, hf2, hb]
      rcases hbr with ⟨heq, rfl⟩ | ⟨hne, hconv, rfl⟩
      · have hA : assignableTo (typeOf w) (typeOf cur2) = true := by
          simp [assignableTo, heq, hcur2]
        rw [if_pos hA]
      · have hna : ¬ assignableTo (typeOf bv) (typeOf cur2) = true := by
          simp only [assignableTo, decide_eq_true_eq]
          rw [hcur2]
          exact hne
        have hcv : convertibleTo (typeOf bv) (typeOf cur2) = true := by
          rw [hcur2]
          exact hconv
        rw [if_neg hna, if_pos hcv, hcur2]
    rw [hstep]
    exact ih (fieldTypes_setField_congr (goTitle k) w hft) hrest

/-- Helper: inversion of a successful custom-type structured-form build. -/
theorem buildObject_custom_inv {reg : Registry} {um : Unmarshal} {ty : String}
    {entries : List (String × Value)} {v : GoVal} {desc : StructDesc}
    (hdesc : lookupReg reg ty = some desc)
    (h : buildObject reg um ⟨ty, .map entries⟩ = .ok v) :
    ty ≠ "context" ∧ ty ≠ "string" ∧ ty ≠ "int" ∧ ty ≠ "array" ∧
    customTagCheck ty = none ∧
    ∃ flds, buildFields reg um ty (zeroStruct reg desc) entries = .ok flds ∧
      v = .ptr (.structV ty flds) := by
  simp only [buildObject] at h
  by_cases h1 : ty = "context"
  · rw [if_pos h1] at h; simp [buildContextCase] at h
  · rw [if_neg h1] at h
    by_cases h2 : ty = "string"
    · rw [if_pos h2] at h; simp [buildStringCase] at h
    · rw [if_neg h2] at h
      by_cases h3 : ty = "int"
      · rw [if_pos h3] at h; simp [buildIntCase] at h
      · rw [if_neg h3] at h
        by_cases h4 : ty = "array"
        · rw [if_pos h4] at h; simp [buildArrayCase] at h
        · rw [if_neg h4] at h
          rcases hct : customTagCheck ty with _ | r <;> simp only [hct] at h
          · simp only [hdesc] at h
            simp only [buildCustomValue] at h
            rcases hbf : buildFields reg um ty (zeroStruct reg desc) entries
                with flds | e | _ <;>
              simp only [hbf] at h <;> try exact BuildResult.noConfusion h
            exact ⟨h1, h2, h3, h4, rfl, flds, rfl, (BuildResult.ok.inj h).symm⟩
          · exact absurd h (customTagCheck_some_not_ok ty r hct v)

/-- C6: in the structured form of a registered type, every declared field
not named by the description keeps the zero value of its declared type in
the built instance, and omitting entries never causes an error: every
sublist of a successfully built description also builds successfully. -/
theorem c6_sparse_construction (reg : Registry) (um : Unmarshal) (ty : String)
    (desc : StructDesc) (entries : List (String × Value)) (v : GoVal)
    (hdesc : lookupReg reg ty = some desc)
    (hnodup : (desc.map Prod.fst).Nodup)
    (hok : buildObject reg um ⟨ty, .map entries⟩ = .ok v) :
    (∃ flds, v = .ptr (.structV ty flds) ∧
      ∀ fn ft, (fn, ft) ∈ desc → (∀ e ∈ entries, goTitle e.1 ≠ fn) →
        findField flds fn = some (zeroVal reg ft)) ∧
    (∀ entries2 : List (String × Value), entries2.Sublist entries →
      ∃ v2, buildObject reg um ⟨ty, .map entries2⟩ = .ok v2) := by
  obtain ⟨h1, h2, h3, h4, hct, flds, hbf, rfl⟩ := buildObject_custom_inv hdesc hok
  constructor
  · refine ⟨flds, rfl, fun fn ft hmem hfn => ?_⟩
    rw [buildFields_preserves_unset hbf fn hfn]
    exact findField_zeroFieldsF reg (reg.length + 1) desc fn ft hmem hnodup
  · intro entries2 hsub
    obtain ⟨flds2, hbf2⟩ := buildFields_sublist hsub rfl hbf
    refine ⟨.ptr (.structV ty flds2), ?_⟩
    simp [buildObject, h1, h2, h3, h4, hct, hdesc, buildCustomValue, hbf2]

/-- C6 (witness): describing only `field1` of `Foo` builds an instance with
`Field2` at its zero value, and every sublist of that description (the
empty description included) still builds. -/
theorem c6_sparse_construction_witness :
    (∃ flds, GoVal.ptr (.structV "Foo" [("Field1", GoVal.int 7), ("Field2", GoVal.str "")]) =
        .ptr (.structV "Foo" flds) ∧
      ∀ fn ft, (fn, ft) ∈ ([("Field1", GoType.int), ("Field2", GoType.string)] : StructDesc) →
        (∀ e ∈ [("field1", Value.map [("type", Value.str "int"), ("value", Value.int 7)])],
          goTitle e.1 ≠ fn) →
        findField flds fn = some (zeroVal regFoo2 ft)) ∧
    (∀ entries2 : List (String × Value),
      entries2.Sublist [("field1", Value.map [("type", Value.str "int"), ("value", Value.int 7)])] →
      ∃ v2, buildObject regFoo2 umNone ⟨"Foo", .map entries2⟩ = .ok v2) :=
  c6_sparse_construction regFoo2 umNone "Foo"
    [("Field1", GoType.int), ("Field2", GoType.string)]
    [("field1", Value.map [("type", Value.str "int"), ("value", Value.int 7)])]
    (.ptr (.structV "Foo" [("Field1", .int 7), ("Field2", .str "")]))
    rfl (by simp)
    (by
      have hint : buildObject regFoo2 umNone ⟨"int", Value.int 7⟩ = .ok (.int 7) := by
        simp only [buildObject, String.reduceEq, reduceIte, buildIntCase]
      have hmap : buildObjectFromMap regFoo2 umNone
          [("type", Value.str "int"), ("value", Value.int 7)] = .ok (.int 7) := by
        simp only [buildObjectFromMap, lookupSized, String.reduceEq, reduceIte, hint]
      have hzs : zeroStruct regFoo2 [("Field1", GoType.int), ("Field2", GoType.string)] =
          [("Field1", GoVal.int 0), ("Field2", GoVal.str "")] := by
        simp [zeroStruct, zeroFieldsF, zeroValF, regFoo2]
      have hgt : goTitle "field1" = "Field1" := rfl
      have hbf : buildFields regFoo2 umNone "Foo"
          [("Field1", GoVal.int 0), ("Field2", GoVal.str "")]
          [("field1", Value.map [("type", Value.str "int"), ("value", Value.int 7)])] =
          .ok [("Field1", GoVal.int 7), ("Field2", GoVal.str "")] := by
        simp [buildFields, hgt, findField, hmap, typeOf, assignableTo, setField]
      have hct : customTagCheck "Foo" = none := rfl
      have hlr : lookupReg regFoo2 "Foo" =
          some [("Field1", GoType.int), ("Field2", GoType.string)] := rfl
      simp only [buildObject, String.reduceEq, reduceIte, hct, hlr, buildCustomValue,
        hzs, hbf])

/-- Helper: lower-casing the first character keeps a string nonempty. -/
theorem lowerFirst_ne_empty {s : String} (h : s ≠ "") : lowerFirst s ≠ "" := by
  intro hc
  rcases hd : s.data with _ | ⟨c, rest⟩
  · exact h (by cases s with | mk d => simp at hd; simp [hd])
  · rw [lowerFirst, hd] at hc
    have h2 := congrArg String.data hc
    simp at h2

/-- Helper: building the canonical element description of a value builds
the value. -/
theorem buildObjectFromMap_desc {reg : Registry} {um : Unmarshal} {x : GoVal}
    (h : buildObject reg um (objOf x) = .ok x) :
    buildObjectFromMap reg um [("type", .str (tagOf x)), ("value", descValueOf x)] =
      .ok x := by
  simp only [buildObjectFromMap, lookupSized, String.reduceEq, reduceIte]
  exact h

/-- Helper: the array loop rebuilds canonically described elements. -/
theorem buildArrayLoop_descElems {reg : Registry} {um : Unmarshal} {t : GoType} :
    ∀ xs : List GoVal,
      (∀ x ∈ xs, buildObject reg um (objOf x) = .ok x ∧ typeOf x = t) →
      buildArrayLoop reg um t (descElems xs) = .ok xs := by
  intro xs
  induction xs with
  | nil => intro _; simp [descElems, buildArrayLoop]
  | cons x rest ih =>
    intro hx
    have h0 := hx x (List.mem_cons_self _ _)
    simp [descElems, buildArrayLoop, buildObjectFromMap_desc h0.1, h0.2,
      ih (fun y hy => hx y (List.mem_cons_of_mem _ hy))]

/-- Helper: the JSON slice loop rebuilds canonically described elements. -/
theorem buildJsonSlice_jsonElems {reg : Registry} {t : GoType} :
    ∀ xs : List GoVal,
      (∀ x ∈ xs, buildValueFromJSON reg t (jsonOf x) = .ok x ∧ typeOf x = t) →
      buildJsonSlice reg t (jsonElems xs) = .ok xs := by
  intro xs
  induction xs with
  | nil => intro _; simp [jsonElems, buildJsonSlice]
  | cons x rest ih =>
    intro hx
    have h0 := hx x (List.mem_cons_self _ _)
    simp [jsonElems, buildJsonSlice, h0.1, h0.2,
      ih (fun y hy => hx y (List.mem_cons_of_mem _ hy))]

/-- Helper: a fold of sets avoiding a head field passes over it. -/
theorem setAll_cons_ne {n : String} {w : GoVal} :
    ∀ (todo tail : List (String × GoVal)),
      (∀ q ∈ todo, q.1 ≠ n) →
      setAll ((n, w) :: tail) todo = (n, w) :: setAll tail todo := by
  intro todo
  induction todo with
  | nil => intro tail _; rfl
  | cons q rest ih =>
    intro tail hq
    obtain ⟨qn, qv⟩ := q
    have hqn : qn ≠ n := hq (qn, qv) (List.mem_cons_self _ _)
    simp only [setAll, List.foldl_cons]
    rw [show setField ((n, w) :: tail) qn qv = (n, w) :: setField tail qn qv from by
      simp [setField, Ne.symm hqn]]
    exact ih (setField tail qn qv) (fun q2 hq2 => hq q2 (List.mem_cons_of_mem _ hq2))

/-- Helper: setting every declared field of a zeroed instance, in
declaration order with distinct names, yields exactly those fields. -/
theorem setAll_zero (reg : Registry) (fuel : Nat) :
    ∀ (desc : StructDesc) (fs : List (String × GoVal)),
      fs.map Prod.fst = desc.map Prod.fst →
      (desc.map Prod.fst).Nodup →
      setAll (zeroFieldsF reg fuel desc) fs = fs := by
  intro desc
  induction desc with
  | nil =>
    intro fs hn _
    cases fs with
    | nil => simp [zeroFieldsF, setAll]
    | cons q r => simp at hn
  | cons d drest ih =>
    intro fs hn hnd
    obtain ⟨dn, dt⟩ := d
    cases fs with
    | nil => simp at hn
    | cons q frest =>
      obtain ⟨qn, qv⟩ := q
      simp only [List.map_cons, List.cons.injEq] at hn
      obtain ⟨rfl, htail⟩ := hn
      rw [List.map_cons] at hnd
      have hnotin := (List.nodup_cons.mp hnd).1
      have hndr := (List.nodup_cons.mp hnd).2
      have hfr : ∀ q2 ∈ frest, q2.1 ≠ qn := by
        intro q2 hq2 hEq
        exact hnotin (htail ▸ List.mem_map.mpr ⟨q2, hq2, hEq⟩)
      simp only [zeroFieldsF, setAll, List.foldl_cons]
      rw [show setField ((qn, zeroValF reg fuel dt) :: zeroFieldsF reg fuel drest) qn qv =
            (qn, qv) :: zeroFieldsF reg fuel drest from by simp [setField]]
      rw [show List.foldl (fun i p => setField i p.1 p.2)
            ((qn, qv) :: zeroFieldsF reg fuel drest) frest =
          setAll ((qn, qv) :: zeroFieldsF reg fuel drest) frest from rfl]
      rw [setAll_cons_ne frest _ hfr]
      rw [show setAll (zeroFieldsF reg fuel drest) frest = frest from ih frest htail hndr]

/-- Helper: name-aligned field lists pair each field with its declared
type. -/
theorem fields_aligned : ∀ (desc : StructDesc) (fs : List (String × GoVal)),
    fs.map Prod.fst = desc.map Prod.fst →
    (∀ p ∈ List.zip desc fs, typeOf p.2.2 = p.1.2) →
    ∀ q ∈ fs, ∃ dt, (q.1, dt) ∈ desc ∧ typeOf q.2 = dt := by
  intro desc
  induction desc with
  | nil =>
    intro fs hn _ q hq
    cases fs with
    | nil => cases hq
    | cons a r => simp at hn
  | cons d drest ih =>
    intro fs hn hz q hq
    obtain ⟨dn, dt⟩ := d
    cases fs with
    | nil => cases hq
    | cons f frest =>
      obtain ⟨fn, fv⟩ := f
      simp only [List.map_cons, List.cons.injEq] at hn
      obtain ⟨rfl, htail⟩ := hn
      rcases List.mem_cons.mp hq with heq | hq2
      · subst heq
        refine ⟨dt, List.mem_cons_self _ _, ?_⟩
        exact hz ((fn, dt), (fn, fv))
          (by rw [List.zip_cons_cons]; exact List.mem_cons_self _ _)
      · obtain ⟨dt2, hdt2, ht2⟩ := ih frest htail
          (fun p hp => hz p (by rw [List.zip_cons_cons]; exact List.mem_cons_of_mem _ hp)) q hq2
        exact ⟨dt2, List.mem_cons_of_mem _ hdt2, ht2⟩

/-- Helper: each field of a name-aligned field list pairs with its
descriptor entry in the zipped lists. -/
theorem fields_zip_mem : ∀ (desc : StructDesc) (fs : List (String × GoVal)),
    fs.map Prod.fst = desc.map Prod.fst →
    ∀ q ∈ fs, ∃ d, (d, q) ∈ List.zip desc fs ∧ d.1 = q.1 := by
  intro desc
  induction desc with
  | nil =>
    intro fs hn q hq
    cases fs with
    | nil => cases hq
    | cons a r => simp at hn
  | cons d drest ih =>
    intro fs hn q hq
    obtain ⟨dn, dt⟩ := d
    cases fs with
    | nil => cases hq
    | cons f frest =>
      obtain ⟨fn, fv⟩ := f
      simp only [List.map_cons, List.cons.injEq] at hn
      obtain ⟨rfl, htail⟩ := hn
      rcases List.mem_cons.mp hq with heq | hq2
      · subst heq
        exact ⟨(fn, dt), by rw [List.zip_cons_cons]; exact List.mem_cons_self _ _, rfl⟩
      · obtain ⟨d2, hd2, hdn2⟩ := ih frest htail q hq2
        exact ⟨d2, by rw [List.zip_cons_cons]; exact List.mem_cons_of_mem _ hd2, hdn2⟩

/-- Helper: the structured-form field loop over the canonical description
of a full field set performs exactly the corresponding sets. -/
theorem buildFields_setAll {reg : Registry} {um : Unmarshal} (tyName : String) :
    ∀ (todo : List (String × GoVal)) (inst : List (String × GoVal)),
      (todo.map Prod.fst).Nodup →
      (∀ p ∈ todo, p.1 ≠ "" ∧ goTitle (lowerFirst p.1) = p.1) →
      (∀ p ∈ todo, ∃ cur, findField inst p.1 = some cur ∧ typeOf cur = typeOf p.2) →
      (∀ p ∈ todo, buildObject reg um (objOf p.2) = .ok p.2) →
      buildFields reg um tyName inst (descFields todo) = .ok (setAll inst todo) := by
  intro todo
  induction todo with
  | nil => intro inst _ _ _ _; simp [descFields, buildFields, setAll]
  | cons p rest ih =>
    intro inst hnd hkeys hff hbld
    obtain ⟨f, x⟩ := p
    have hk := hkeys (f, x) (List.mem_cons_self _ _)
    obtain ⟨cur, hcur, hct⟩ := hff (f, x) (List.mem_cons_self _ _)
    have hb := hbld (f, x) (List.mem_cons_self _ _)
    have hkne : lowerFirst f ≠ "" := lowerFirst_ne_empty hk.1
    rw [List.map_cons] at hnd
    have hheadout := (List.nodup_cons.mp hnd).1
    have hndr := (List.nodup_cons.mp hnd).2
    have hstep : buildFields reg um tyName inst (descFields ((f, x) :: rest)) =
        buildFields reg um tyName (setField inst f x) (descFields rest) := by
      simp only [descFields, buildFields, if_neg hkne, hk.2, hcur,
        buildObjectFromMap_desc hb]
      have hA : assignableTo (typeOf x) (typeOf cur) = true := by
        simp [assignableTo, hct]
      rw [if_pos hA]
    rw [hstep]
    rw [show setAll inst ((f, x) :: rest) = setAll (setField inst f x) rest from rfl]
    refine ih (setField inst f x) hndr
      (fun q hq => hkeys q (List.mem_cons_of_mem _ hq)) ?_
      (fun q hq => hbld q (List.mem_cons_of_mem _ hq))
    intro q hq
    obtain ⟨cur2, hcur2, hct2⟩ := hff q (List.mem_cons_of_mem _ hq)
    have hne : f ≠ q.1 := by
      intro hEq
      exact hheadout (List.mem_map.mpr ⟨q, hq, hEq.symm⟩)
    refine ⟨cur2, ?_, hct2⟩
    rw [findField_setField_ne f q.1 x hne inst]
    exact hcur2

/-- Helper: the JSON field loop over the canonical document of a full
field set performs exactly the corresponding sets. -/
theorem buildJsonFields_setAll {reg : Registry} (tyName : String) :
    ∀ (todo : List (String × GoVal)) (inst : List (String × GoVal)),
      (todo.map Prod.fst).Nodup →
      (∀ p ∈ todo, p.1 ≠ "" ∧ goTitle (lowerFirst p.1) = p.1) →
      (∀ p ∈ todo, ∃ cur, findField inst p.1 = some cur ∧ typeOf cur = typeOf p.2) →
      (∀ p ∈ todo, buildValueFromJSON reg (typeOf p.2) (jsonOf p.2) = .ok p.2) →
      buildJsonFields reg tyName inst (jsonFields todo) = .ok (setAll inst todo) := by
  intro todo
  induction todo with
  | nil => intro inst _ _ _ _; simp [jsonFields, buildJsonFields, setAll]
  | cons p rest ih =>
    intro inst hnd hkeys hff hbld
    obtain ⟨f, x⟩ := p
    have hk := hkeys (f, x) (List.mem_cons_self _ _)
    obtain ⟨cur, hcur, hct⟩ := hff (f, x) (List.mem_cons_self _ _)
    have hb := hbld (f, x) (List.mem_cons_self _ _)
    have hkne : lowerFirst f ≠ "" := lowerFirst_ne_empty hk.1
    rw [List.map_cons] at hnd
    have hheadout := (List.nodup_cons.mp hnd).1
    have hndr := (List.nodup_cons.mp hnd).2
    have hstep : buildJsonFields reg tyName inst (jsonFields ((f, x) :: rest)) =
        buildJsonFields reg tyName (setField inst f x) (jsonFields rest) := by
      simp only [jsonFields, buildJsonFields, if_neg hkne, hk.2, hcur, hct, hb, if_true]
    rw [hstep]
    rw [show setAll inst ((f, x) :: rest) = setAll (setField inst f x) rest from rfl]
    refine ih (setField inst f x) hndr
      (fun q hq => hkeys q (List.mem_cons_of_mem _ hq)) ?_
      (fun q hq => hbld q (List.mem_cons_of_mem _ hq))
    intro q hq
    obtain ⟨cur2, hcur2, hct2⟩ := hff q (List.mem_cons_of_mem _ hq)
    have hne : f ≠ q.1 := by
      intro hEq
      exact hheadout (List.mem_map.mpr ⟨q, hq, hEq.symm⟩)
    refine ⟨cur2, ?_, hct2⟩
    rw [findField_setField_ne f q.1 x hne inst]
    exact hcur2

/-- Helper: every representable value is rebuilt by its canonical
structured description and by its canonical JSON document, and carries its
declared type. -/
theorem jrep_build (reg : Registry) (um : Unmarshal) :
    ∀ {t : GoType} {v : GoVal}, JRep reg t v →
      buildObject reg um (objOf v) = .ok v ∧
      buildValueFromJSON reg t (jsonOf v) = .ok v ∧
      typeOf v = t := by
  intro t v h
  induction h with
  | int n =>
    exact ⟨by simp [objOf, tagOf, descValueOf, buildObject, buildIntCase],
      by simp [jsonOf, buildValueFromJSON], rfl⟩
  | str s =>
    exact ⟨by simp [objOf, tagOf, descValueOf, buildObject, buildStringCase],
      by simp [jsonOf, buildValueFromJSON], rfl⟩
  | slice t xs hne helems ih =>
    refine ⟨?_, ?_, rfl⟩
    · match xs, hne, ih with
      | x0 :: rest, _, ih =>
        have h0 := ih x0 (List.mem_cons_self _ _)
        have hloop := buildArrayLoop_descElems rest
          (fun y hy => ⟨(ih y (List.mem_cons_of_mem _ hy)).1,
            (ih y (List.mem_cons_of_mem _ hy)).2.2⟩)
        have hobj : objOf (GoVal.slice t (x0 :: rest)) =
            ⟨"array", .list (descElems (x0 :: rest))⟩ := by
          simp [objOf, tagOf, descValueOf]
        rw [hobj]
        rw [show descElems (x0 :: rest) =
            .map [("type", .str (tagOf x0)), ("value", descValueOf x0)] :: descElems rest
          from by rw [descElems]]
        simp [buildObject, buildArrayCase, buildObjectFromMap_desc h0.1, h0.2.2, hloop]
    · match xs, hne, ih with
      | x0 :: rest, _, ih =>
        have hslice := buildJsonSlice_jsonElems (x0 :: rest)
          (fun y hy => ⟨(ih y hy).2.1, (ih y hy).2.2⟩)
        simp [jsonOf, buildValueFromJSON, hslice]
  | ptrStruct n desc fs hreg hname hnb hnames2 hnodup hkeys hfields ih =>
    have hn0 : n ≠ "" := fun hEq => hname.1 (by simp [hEq, lastComp, lastCompAux])
    have hct : customTagCheck n = none := by
      unfold customTagCheck
      rw [if_neg hn0, if_neg hname.1, if_neg (not_not_intro hname.2)]
    have hndfs : (fs.map Prod.fst).Nodup := by rw [hnames2]; exact hnodup
    have hkeys2 : ∀ p ∈ fs, p.1 ≠ "" ∧ goTitle (lowerFirst p.1) = p.1 :=
      fun p hp => hkeys p.1 (List.mem_map.mpr ⟨p, hp, rfl⟩)
    have hzipmem := fields_zip_mem desc fs hnames2
    have hff : ∀ p ∈ fs, ∃ cur, findField (zeroStruct reg desc) p.1 = some cur ∧
        typeOf cur = typeOf p.2 := by
      intro p hp
      obtain ⟨d, hzip, hd1⟩ := hzipmem p hp
      have hih := ih (d, p) hzip
      have hdeq : (p.1, d.2) = d := by rw [← hd1]
      have hdmem : (p.1, d.2) ∈ desc := by rw [hdeq]; exact (List.of_mem_zip hzip).1
      refine ⟨zeroValF reg (reg.length + 1) d.2,
        findField_zeroFieldsF reg (reg.length + 1) desc p.1 d.2 hdmem hnodup, ?_⟩
      rw [typeOf_zeroValF, hih.2.2]
    have hbuilds : ∀ p ∈ fs, buildObject reg um (objOf p.2) = .ok p.2 := by
      intro p hp
      obtain ⟨d, hzip, _⟩ := hzipmem p hp
      exact (ih (d, p) hzip).1
    have hjsons : ∀ p ∈ fs, buildValueFromJSON reg (typeOf p.2) (jsonOf p.2) = .ok p.2 := by
      intro p hp
      obtain ⟨d, hzip, _⟩ := hzipmem p hp
      have hih := ih (d, p) hzip
      rw [hih.2.2]
      exact hih.2.1
    have hsetall : setAll (zeroStruct reg desc) fs = fs :=
      setAll_zero reg (reg.length + 1) desc fs hnames2 hnodup
    have hbf := buildFields_setAll n fs (zeroStruct reg desc) hndfs hkeys2 hff hbuilds
    have hjf := buildJsonFields_setAll n fs (zeroStruct reg desc) hndfs hkeys2 hff hjsons
    rw [hsetall] at hbf hjf
    refine ⟨?_, ?_, by simp [typeOf]⟩
    · have hobj : objOf (GoVal.ptr (.structV n fs)) = ⟨n, .map (descFields fs)⟩ := by
        simp [objOf, tagOf, descValueOf]
      rw [hobj]
      simp [buildObject, hnb.1, hnb.2.1, hnb.2.2.1, hnb.2.2.2, hct, hreg,
        buildCustomValue, hbf]
    · have hjobj : jsonOf (GoVal.ptr (.structV n fs)) = .obj (jsonFields fs) := by
        simp [jsonOf]
      rw [hjobj]
      simp [buildValueFromJSON, buildObjectFromJSONT, hreg, hjf]

/-- C2: for every registered record type and every representable value with
its full field set, building the value through the canonical structured
form and building the same logical value through the encoded-document form
(a string the external decoder reads as the value's JSON document, decoded
against the registered field layout) produce the same — hence deeply
equal — instance. -/
theorem c2_structured_json_parity (reg : Registry) (um : Unmarshal) (n : String)
    (v : GoVal) (s : String)
    (h : JRep reg (.ptr (.named n)) v)
    (hum : um s = .ok (jsonDoc v)) :
    buildObject reg um (objOf v) = .ok v ∧
    buildObject reg um ⟨n, .str s⟩ = .ok v := by
  have hmain := jrep_build reg um h
  refine ⟨hmain.1, ?_⟩
  cases h with
  | ptrStruct n desc fs hreg hname hnb hnames2 hnodup hkeys hfields =>
    have hn0 : n ≠ "" := fun hEq => hname.1 (by simp [hEq, lastComp, lastCompAux])
    have hct : customTagCheck n = none := by
      unfold customTagCheck
      rw [if_neg hn0, if_neg hname.1, if_neg (not_not_intro hname.2)]
    have hjson := hmain.2.1
    rw [show jsonOf (GoVal.ptr (.structV n fs)) = .obj (jsonFields fs) from by
      simp [jsonOf]] at hjson
    rw [show buildValueFromJSON reg (.ptr (.named n)) (.obj (jsonFields fs)) =
        buildObjectFromJSONT reg (.named n) (jsonFields fs) from by
      simp [buildValueFromJSON]] at hjson
    have hdoc : jsonDoc (GoVal.ptr (.structV n fs)) = jsonFields fs := by simp [jsonDoc]
    rw [hdoc] at hum
    simp [buildObject, hnb.1, hnb.2.1, hnb.2.2.1, hnb.2.2.2, hct, hreg,
      buildCustomValue, hum, hjson]

/-- C2 (witness): the one-field record `pkg.Foo{A: 5}` built through the
canonical structured form and through the encoded document "doc" (decoded
as `{"a": 5}`) yields the same instance. -/
theorem c2_structured_json_parity_witness :
    buildObject regPkgFoo umFooDoc (objOf (.ptr (.structV "pkg.Foo" [("A", GoVal.int 5)]))) =
      .ok (.ptr (.structV "pkg.Foo" [("A", GoVal.int 5)])) ∧
    buildObject regPkgFoo umFooDoc ⟨"pkg.Foo", .str "doc"⟩ =
      .ok (.ptr (.structV "pkg.Foo" [("A", GoVal.int 5)])) :=
  c2_structured_json_parity regPkgFoo umFooDoc "pkg.Foo"
    (.ptr (.structV "pkg.Foo" [("A", GoVal.int 5)])) "doc"
    (JRep.ptrStruct "pkg.Foo" [("A", GoType.int)] [("A", GoVal.int 5)]
      rfl (by constructor <;> decide) (by refine ⟨?_, ?_, ?_, ?_⟩ <;> decide)
      (by decide) (by decide)
      (by
        intro f hf
        simp only [List.map_cons, List.map_nil, List.mem_singleton] at hf
        subst hf
        exact ⟨by decide, by decide⟩)
      (by
        intro p hp
        simp only [List.zip_cons_cons, List.zip_nil_right, List.mem_singleton] at hp
        subst hp
        exact JRep.int 5))
    (by simp [umFooDoc, jsonDoc, jsonFields, jsonOf, lowerFirst])

end A3